import Mathlib

/-!
Stock withdrawal and history routes of `black-front`.

A shallow embedding of the two `POST /withdraw/:id` handlers and the three
history listings found in `src/routes/stock.js` (the variant that wraps its writes
in a session transaction) and `src/src/routes/stock.js` (the variant that reverts
the stock by hand), together with the Mongoose schemas they save through.

Conventions of the embedding

* Request-body fields are JSON scalars (`JsVal`); arrays and objects in the
  place of a scalar are outside the embedding.  A finite Number is an exact
  rational: the rounding of IEEE doubles, and the overflow or underflow of a
  literal beyond their range, are outside the embedding, as is the exponent
  notation in which a Number of magnitude below `1e-6` or from `1e21`
  prints.  A string is read as a Number by the full
  `StringNumericLiteral` grammar (fraction, exponent, radix literal,
  `Infinity`).
* Ids are kept in the spelling given: an ObjectId prints in lower case, and
  an upper-case spelling of a stored id is outside the embedding.
* The database is a value of type `Store`.  Every storage call takes its
  outcome from an `Env` record (did the call succeed, and what did `Date.now()`
  return), so that a handler is a total function of the store, the
  environment and the request.
* Each handler returns the HTTP response, the store it leaves behind and the
  list of storage calls it issued, in order.
-/

namespace BlackFront

/-! ## JavaScript values and the coercions the handlers rely on -/

/-- A JavaScript Number: `NaN`, the two infinities, or a finite value. -/
inductive JsNum where
  | nan
  | negInf
  | posInf
  | fin (q : ℚ)
deriving DecidableEq

/-- A scalar as it can sit in a parsed JSON body (`undefined` for an absent
field). -/
inductive JsVal where
  | undefined
  | null
  | bool (b : Bool)
  | num (n : JsNum)
  | str (s : String)
deriving DecidableEq

/-- The characters `StrWhiteSpaceChar` of the ECMAScript grammar, which
`Number(string)` strips from both ends. -/
def isStrWhiteSpaceChar (c : Char) : Bool :=
  let n := c.toNat
  n == 0x09 || n == 0x0A || n == 0x0B || n == 0x0C || n == 0x0D || n == 0x20 ||
  n == 0xA0 || n == 0x1680 || (0x2000 ≤ n && n ≤ 0x200A) || n == 0x2028 ||
  n == 0x2029 || n == 0x202F || n == 0x205F || n == 0x3000 || n == 0xFEFF

/-- Strip `StrWhiteSpaceChar`s from both ends. -/
def trimWhiteSpace (cs : List Char) : List Char :=
  ((cs.dropWhile isStrWhiteSpaceChar).reverse.dropWhile isStrWhiteSpaceChar).reverse

/-- A character of the class `[0-9a-fA-F]`. -/
def isHexChar (c : Char) : Bool :=
  ('0' ≤ c && c ≤ '9') || ('a' ≤ c && c ≤ 'f') || ('A' ≤ c && c ≤ 'F')

/-- The value of a digit in a radix up to sixteen. -/
def digitValue (c : Char) : Nat :=
  if '0' ≤ c && c ≤ '9' then c.toNat - 48
  else if 'a' ≤ c && c ≤ 'f' then c.toNat - 87
  else c.toNat - 55

/-- A digit of the given radix. -/
def isDigitOf (radix : Nat) (c : Char) : Bool := isHexChar c && decide (digitValue c < radix)

/-- The value of a run of digits in the given radix. -/
def digitsValue (radix : Nat) (ds : List Char) : Nat :=
  ds.foldl (fun n c => radix * n + digitValue c) 0

/-- `DecimalDigits`: the value of a non-empty run of decimal digits; `none` for
anything else. -/
def decimalDigits (ds : List Char) : Option Nat :=
  if ds.isEmpty || !ds.all Char.isDigit then none else some (digitsValue 10 ds)

/-- `NonDecimalIntegerLiteral` after its leading `0x`, `0o` or `0b`. -/
def radixLiteral (radix : Nat) (ds : List Char) : JsNum :=
  if ds.isEmpty || !ds.all (isDigitOf radix) then .nan else .fin (digitsValue radix ds)

/-- `SignedInteger`, the digits of an exponent. -/
def signedInteger : List Char → Option Int
  | '+' :: ds => (decimalDigits ds).map Int.ofNat
  | '-' :: ds => (decimalDigits ds).map (fun n => - Int.ofNat n)
  | ds => (decimalDigits ds).map Int.ofNat

/-- An optional `ExponentPart` that reaches the end of the literal. -/
def exponentPart : List Char → Option Int
  | [] => some 0
  | c :: rest => if c == 'e' || c == 'E' then signedInteger rest else none

/-- The number `m × 10 ^ e`. -/
def scale (m : Nat) (e : Int) : ℚ :=
  match e with
  | .ofNat k => ((m * 10 ^ k : Nat) : ℚ)
  | .negSucc k => mkRat m (10 ^ (k + 1))

/-- `StrUnsignedDecimalLiteral`: `Infinity`, or digits with an optional
fraction and an optional exponent. -/
def unsignedDecimal (cs : List Char) : JsNum :=
  if cs == "Infinity".data then .posInf
  else
    let ip := cs.takeWhile Char.isDigit
    match cs.dropWhile Char.isDigit with
    | '.' :: r =>
      let fp := r.takeWhile Char.isDigit
      if ip.isEmpty && fp.isEmpty then .nan
      else
        match exponentPart (r.dropWhile Char.isDigit) with
        | none => .nan
        | some e => .fin (scale (digitsValue 10 (ip ++ fp)) (e - fp.length))
    | rest =>
      if ip.isEmpty then .nan
      else
        match exponentPart rest with
        | none => .nan
        | some e => .fin (scale (digitsValue 10 ip) e)

/-- Unary minus on a Number. -/
def JsNum.neg : JsNum → JsNum
  | .nan => .nan
  | .negInf => .posInf
  | .posInf => .negInf
  | .fin q => .fin (-q)

/-- `StringToNumber`: surrounding white space is dropped, the empty string is
`0`, a decimal literal may carry a sign, a radix literal may not. -/
def stringToNumber (s : String) : JsNum :=
  match trimWhiteSpace s.data with
  | [] => .fin 0
  | '+' :: cs => unsignedDecimal cs
  | '-' :: cs => (unsignedDecimal cs).neg
  | '0' :: x :: ds =>
    if x == 'x' || x == 'X' then radixLiteral 16 ds
    else if x == 'o' || x == 'O' then radixLiteral 8 ds
    else if x == 'b' || x == 'B' then radixLiteral 2 ds
    else unsignedDecimal ('0' :: x :: ds)
  | cs => unsignedDecimal cs

/-- `ToNumber`. -/
def toNumber : JsVal → JsNum
  | .undefined => .nan
  | .null => .fin 0
  | .bool b => .fin (if b then 1 else 0)
  | .num n => n
  | .str s => stringToNumber s

/-- `ToBoolean`: what `!v` negates. -/
def truthy : JsVal → Bool
  | .undefined => false
  | .null => false
  | .bool b => b
  | .num .nan => false
  | .num (.fin q) => q != 0
  | .num _ => true
  | .str s => s != ""

/-- The global `isNaN(v)`. -/
def isNaN (v : JsVal) : Bool := toNumber v == .nan

/-- The comparison `v <= k` against a finite Number `k`: numeric after
`ToNumber`, and false when `v` is `NaN`. -/
def jsLe (v : JsVal) (k : ℚ) : Bool :=
  match toNumber v with
  | .nan => false
  | .negInf => true
  | .posInf => false
  | .fin n => decide (n ≤ k)

/-- The comparison `k < v` for a finite Number `k`: numeric after `ToNumber`,
and false when `v` is `NaN`. -/
def jsLt (k : ℚ) (v : JsVal) : Bool :=
  match toNumber v with
  | .nan => false
  | .negInf => false
  | .posInf => true
  | .fin n => decide (k < n)

/-- Long division: the decimal digits of `r / d` after the point, for
`r < d`. -/
def fractionDigits : Nat → Nat → Nat → List Char
  | 0, _, _ => []
  | fuel + 1, r, d =>
    if r == 0 then [] else Nat.digitChar (10 * r / d) :: fractionDigits fuel (10 * r % d) d

/-- `Number.prototype.toString` on a finite value: the decimal digits, with a
point when the value is not an integer (exact for a decimal fraction of at
most twenty places). -/
def numberToString (q : ℚ) : String :=
  if q.den == 1 then toString q.num
  else
    (if q.num < 0 then "-" else "") ++ toString (q.num.natAbs / q.den) ++ "." ++
      String.mk (fractionDigits 20 (q.num.natAbs % q.den) q.den)

/-- `Number.prototype.toString`. -/
def JsNum.toString : JsNum → String
  | .nan => "NaN"
  | .negInf => "-Infinity"
  | .posInf => "Infinity"
  | .fin q => numberToString q

/-- The operator `k - v` for a finite Number `k`: always numeric. -/
def jsSub (k : ℚ) (v : JsVal) : JsNum :=
  match toNumber v with
  | .nan => .nan
  | .negInf => .posInf
  | .posInf => .negInf
  | .fin n => .fin (k - n)

/-- The operator `k + v` for a finite Number `k`: concatenation as soon as `v`
is a string, numeric addition otherwise. -/
def jsAdd (k : ℚ) (v : JsVal) : JsVal :=
  match v with
  | .str s => .str (numberToString k ++ s)
  | _ =>
    match toNumber v with
    | .fin n => .num (.fin (k + n))
    | n => .num n

/-! ## Mongoose casts for the schema types in use -/

/-- What a required `Number` path stores for an assigned value; `none` when the
value is rejected (cast error on `NaN`, nothing to store for `null`,
`undefined` or the empty string).  Stored numbers are finite in the
embedding: an infinity is not stored either, and no path of the handlers
assigns one (a quantity that passed the checks is finite). -/
def castNumber : JsVal → Option ℚ
  | .undefined => none
  | .null => none
  | .bool b => some (if b then 1 else 0)
  | .num (.fin q) => some q
  | .num _ => none
  | .str s =>
    if s == "" then none
    else
      match stringToNumber s with
      | .fin q => some q
      | _ => none

/-- What a required `String` path stores for an assigned value; `none` when
the required check rejects it. -/
def castString : JsVal → Option String
  | .undefined => none
  | .null => none
  | .bool b => some (if b then "true" else "false")
  | .num n => some n.toString
  | .str s => if s == "" then none else some s

/-- The test `/^[0-9a-fA-F]{24}$/`: the string form of an ObjectId. -/
def matchesObjectId (id : String) : Bool :=
  id.data.length == 24 && id.data.all isHexChar

/-- What a required `ObjectId` path stores for an id given as a string; `none`
when the cast rejects it. -/
def castObjectId (id : String) : Option String :=
  if matchesObjectId id then some id else none

/-! ## Data model (the Mongoose schemas) -/

/-- A document of the `Stock` collection, after the schema of
`src/src/models/Stock.js`. -/
structure StockItem where
  _id : String
  productCode : String
  sku : String
  description : String
  quantity : ℚ
  price : ℚ
  image : Option String
  category : String
  createdBy : String
  createdAt : Nat
  updatedAt : Nat
deriving DecidableEq

/-- The `enum` of the `type` path of a history record. -/
inductive HistoryType where
  | withdraw
  | add
deriving DecidableEq

/-- A document of the `StockHistory` collection (`src/models/StockHistory.js`
and `src/src/models/StockHistory.js` declare the same paths, with
`timestamps: true`). -/
structure HistoryEntry where
  stock : String
  quantity : ℚ
  reason : String
  type : HistoryType
  user : String
  createdAt : Nat
  updatedAt : Nat
deriving DecidableEq

/-- Modelled from the spec: the `User` model is not among the sources; the
history listings only read the summary fields `username`, `name`, `email`. -/
structure User where
  _id : String
  username : String
  name : String
  email : String
deriving DecidableEq

/-- The durable state: the three collections. -/
structure Store where
  stocks : List StockItem
  history : List HistoryEntry
  users : List User
deriving DecidableEq

/-- Outcome of every storage call of one request and the clock readings taken
while saving.  A `false` flag makes the corresponding call reject. -/
structure Env where
  findOk : Bool
  sessionOk : Bool
  stockSaveOk : Bool
  historySaveOk : Bool
  commitOk : Bool
  revertSaveOk : Bool
  tStock : Nat
  tHistory : Nat
  tRevert : Nat
deriving DecidableEq

/-- A storage call issued by a handler. -/
inductive Op where
  | findStock (id : String)
  | startSession
  | saveStock (id : String) (quantity : ℚ)
  | saveHistory (stock : String)
  | commitTransaction
  | abortTransaction
  | findHistory
deriving DecidableEq

/-! ## The models' operations -/

/-- A `Stock` document held in memory by a handler: its fields, and whether an
assignment to `quantity` was rejected by the cast (the document then fails
validation on save). -/
structure StockDoc where
  fields : StockItem
  invalid : Bool
deriving DecidableEq

/-- The document with `quantity` replaced. -/
def StockItem.withQuantity (s : StockItem) (q : ℚ) : StockItem := { s with quantity := q }

/-- The document with `updatedAt` replaced. -/
def StockItem.withUpdatedAt (s : StockItem) (now : Nat) : StockItem := { s with updatedAt := now }

/-- The query `Stock.findById(id)` resolved against the collection. -/
def Stock.findById (stocks : List StockItem) (id : String) : Option StockDoc :=
  (stocks.find? (fun s => s._id == id)).map (fun s => ⟨s, false⟩)

/-- Assignment `stock.quantity = v` through the schema setter (`type: Number`):
a value the cast rejects is not assigned and marks the document invalid. -/
def StockDoc.setQuantity (d : StockDoc) (v : JsVal) : StockDoc :=
  match castNumber v with
  | some z => ⟨d.fields.withQuantity z, d.invalid⟩
  | none => ⟨d.fields, true⟩

/-- Replace the stored document carrying the same `_id`; `none` when the
collection holds no such document. -/
def replaceStock (s : StockItem) : List StockItem → Option (List StockItem)
  | [] => none
  | t :: ts =>
    if t._id == s._id then some (s :: ts)
    else (replaceStock s ts).map (fun r => t :: r)

/-- The call `stock.save()`: the `pre('save')` hook stamps `updatedAt`, the
schema validates (`quantity` is a Number with `min: 0`), and the document is
written unless the storage layer rejects the call (`ok = false`). -/
def StockDoc.save (d : StockDoc) (ok : Bool) (now : Nat) (stocks : List StockItem) :
    Option (StockDoc × List StockItem) :=
  let d1 : StockDoc := ⟨d.fields.withUpdatedAt now, d.invalid⟩
  if d1.invalid || decide (d1.fields.quantity < 0) || !ok then none
  else (replaceStock d1.fields stocks).map (fun r => (d1, r))

/-- Modelled from the spec: `models/Stock.js` of the tree of `src/routes/stock.js`
is not among the sources.  The specification describes the two trees as
near-identical copies of the Stock model, so the call `stock.save({ session })`
stamps and validates as `StockDoc.save` does; `stocks` is the session's
pending copy of the collection. -/
def StockDoc.saveInSession (d : StockDoc) (ok : Bool) (now : Nat) (stocks : List StockItem) :
    Option (StockDoc × List StockItem) :=
  d.save ok now stocks

/-- The constructor `new StockHistory({ stock, quantity, reason, type: 'withdraw', user })`
followed by `save()`: the paths are cast (`quantity` to Number, `reason` to
String, `user` to ObjectId; `stock` is the `_id` of the document that was
read, an ObjectId already), all are required, the timestamps are set, and
the record is appended unless a cast or the storage layer rejects the call. -/
def StockHistory.save (stock : String) (quantity reason : JsVal) (user : String)
    (ok : Bool) (now : Nat) (history : List HistoryEntry) :
    Option (HistoryEntry × List HistoryEntry) :=
  match castNumber quantity, castString reason, castObjectId user with
  | some q, some r, some u =>
    if ok then
      let h : HistoryEntry := ⟨stock, q, r, .withdraw, u, now, now⟩
      some (h, history ++ [h])
    else none
  | _, _, _ => none

/-! ## Requests and responses -/

/-- The fields the withdraw handlers destructure from `req.body`. -/
structure WithdrawBody where
  quantity : JsVal
  reason : JsVal
deriving DecidableEq

/-- A referenced document as returned by `populate`, with the field selection
that was asked for (`none`: the whole document). -/
structure Populated (α : Type) where
  doc : α
  select : Option (List String)
deriving DecidableEq

/-- A history record with its `stock` and `user` references populated; a
reference whose target is gone is `none` (JSON `null`). -/
structure HistoryView where
  entry : HistoryEntry
  stock : Option (Populated StockItem)
  user : Option (Populated User)
deriving DecidableEq

/-- The JSON bodies the handlers send.  The `error` text that the failure
bodies carry only when `NODE_ENV` is `development` is left out. -/
inductive Body where
  | message (message : String)
  | missing (message : String) (quantity reason : Option String)
  | insufficient (message : String) (available : ℚ) (requested : JsVal)
  | stock (doc : StockItem)
  | history (rows : List HistoryView)
deriving DecidableEq

/-- An HTTP response: status code and JSON body. -/
structure Response where
  status : Nat
  body : Body
deriving DecidableEq

/-- What one handled request leaves behind: the response sent, the store
afterwards and the storage calls issued, oldest first. -/
structure Outcome where
  response : Response
  store : Store
  trace : List Op
deriving DecidableEq

/-- InvalidIdentifier. -/
def invalidIdentifier : Response := ⟨400, .message "รหัสสินค้าไม่ถูกต้อง"⟩

/-- NotFound. -/
def notFound : Response := ⟨404, .message "ไม่พบสินค้า"⟩

/-- MissingField, with the per-field details. -/
def missingField (quantity reason : JsVal) : Response :=
  ⟨400, .missing "กรุณาระบุจำนวนและเหตุผล"
    (if !truthy quantity then some "กรุณาระบุจำนวน" else none)
    (if !truthy reason then some "กรุณาระบุเหตุผล" else none)⟩

/-- InvalidQuantity. -/
def invalidQuantity : Response := ⟨400, .message "จำนวนต้องเป็นตัวเลขและมากกว่า 0"⟩

/-- InsufficientStock. -/
def insufficientStock (available : ℚ) (requested : JsVal) : Response :=
  ⟨400, .insufficient "จำนวนสินค้าไม่เพียงพอ" available requested⟩

/-- PersistenceFailure of a withdrawal (the outer `catch`). -/
def withdrawFailure : Response := ⟨500, .message "เกิดข้อผิดพลาดในการเบิกสินค้า"⟩

/-! ## `POST /withdraw/:id`, transactional variant (`src/routes/stock.js`) -/

/-- The inner `catch` of the transactional handler: `abortTransaction()` drops
the writes made in the session, the error is thrown again and the outer
`catch` answers 500.  Whether the abort call itself rejects changes nothing:
its error reaches the same outer `catch`. -/
def abortWithdraw (st : Store) (trace : List Op) : Outcome :=
  ⟨withdrawFailure, st, trace ++ [.abortTransaction]⟩

/-- The handler of `POST /withdraw/:id` in `src/routes/stock.js`.  Writes made with
`{ session }` go to a pending copy of the collections, which replaces the
store on `commitTransaction()` only. -/
def withdrawTransactional (env : Env) (st : Store) (id : String) (body : WithdrawBody)
    (user : String) : Outcome :=
  if !matchesObjectId id then ⟨invalidIdentifier, st, []⟩
  else if !env.findOk then ⟨withdrawFailure, st, [.findStock id]⟩
  else
    match Stock.findById st.stocks id with
    | none => ⟨notFound, st, [.findStock id]⟩
    | some stock =>
      if !truthy body.quantity || !truthy body.reason then
        ⟨missingField body.quantity body.reason, st, [.findStock id]⟩
      else if isNaN body.quantity || jsLe body.quantity 0 then
        ⟨invalidQuantity, st, [.findStock id]⟩
      else if jsLt stock.fields.quantity body.quantity then
        ⟨insufficientStock stock.fields.quantity body.quantity, st, [.findStock id]⟩
      else if !env.sessionOk then
        ⟨withdrawFailure, st, [.findStock id, .startSession]⟩
      else
        let stock1 := stock.setQuantity (.num (jsSub stock.fields.quantity body.quantity))
        let t1 := [.findStock id, .startSession, .saveStock id stock1.fields.quantity]
        match stock1.saveInSession env.stockSaveOk env.tStock st.stocks with
        | none => abortWithdraw st t1
        | some (stock2, stocks2) =>
          let t2 := t1 ++ [.saveHistory stock2.fields._id]
          match StockHistory.save stock2.fields._id body.quantity body.reason user
              env.historySaveOk env.tHistory st.history with
          | none => abortWithdraw st t2
          | some (_, history2) =>
            let t3 := t2 ++ [.commitTransaction]
            if env.commitOk then
              ⟨⟨200, .stock stock2.fields⟩,
                { st with stocks := stocks2, history := history2 }, t3⟩
            else abortWithdraw st t3

/-! ## `POST /withdraw/:id`, compensating variant (`src/src/routes/stock.js`) -/

/-- The inner `catch` of the compensating handler: `stock.quantity += quantity`,
`stock.save()`, then the error is thrown again and the outer `catch` answers
500 (also when this second save rejects). -/
def revertWithdraw (env : Env) (st : Store) (stock : StockDoc) (quantity : JsVal)
    (trace : List Op) : Outcome :=
  let reverted := stock.setQuantity (jsAdd stock.fields.quantity quantity)
  let trace1 := trace ++ [.saveStock reverted.fields._id reverted.fields.quantity]
  match reverted.save env.revertSaveOk env.tRevert st.stocks with
  | none => ⟨withdrawFailure, st, trace1⟩
  | some (_, stocks1) => ⟨withdrawFailure, { st with stocks := stocks1 }, trace1⟩

/-- The handler of `POST /withdraw/:id` in `src/src/routes/stock.js`: every write
goes straight to the store. -/
def withdrawCompensating (env : Env) (st : Store) (id : String) (body : WithdrawBody)
    (user : String) : Outcome :=
  if !matchesObjectId id then ⟨invalidIdentifier, st, []⟩
  else if !env.findOk then ⟨withdrawFailure, st, [.findStock id]⟩
  else
    match Stock.findById st.stocks id with
    | none => ⟨notFound, st, [.findStock id]⟩
    | some stock =>
      if !truthy body.quantity || !truthy body.reason then
        ⟨missingField body.quantity body.reason, st, [.findStock id]⟩
      else if isNaN body.quantity || jsLe body.quantity 0 then
        ⟨invalidQuantity, st, [.findStock id]⟩
      else if jsLt stock.fields.quantity body.quantity then
        ⟨insufficientStock stock.fields.quantity body.quantity, st, [.findStock id]⟩
      else
        let stock1 := stock.setQuantity (.num (jsSub stock.fields.quantity body.quantity))
        let t1 := [.findStock id, .saveStock id stock1.fields.quantity]
        match stock1.save env.stockSaveOk env.tStock st.stocks with
        | none => revertWithdraw env st stock1 body.quantity t1
        | some (stock2, stocks2) =>
          let st2 : Store := { st with stocks := stocks2 }
          let t2 := t1 ++ [.saveHistory stock2.fields._id]
          match StockHistory.save stock2.fields._id body.quantity body.reason user
              env.historySaveOk env.tHistory st.history with
          | none => revertWithdraw env st2 stock2 body.quantity t2
          | some (_, history2) =>
            ⟨⟨200, .stock stock2.fields⟩, { st2 with history := history2 }, t2⟩

/-! ## The history listings -/

/-- The sort key `{ createdAt: -1 }`: `a` may precede `b`. -/
def newestFirst (a b : HistoryEntry) : Prop := b.createdAt ≤ a.createdAt

instance : DecidableRel newestFirst := fun a b => Nat.decLe b.createdAt a.createdAt

instance : IsTotal HistoryEntry newestFirst := ⟨fun a b => Nat.le_total b.createdAt a.createdAt⟩

instance : IsTrans HistoryEntry newestFirst :=
  ⟨fun _ _ _ hab hbc => Nat.le_trans hbc hab⟩

/-- The query `StockHistory.find().sort({ createdAt: -1 })`. -/
def StockHistory.findSorted (history : List HistoryEntry) : List HistoryEntry :=
  history.insertionSort newestFirst

/-- The two `populate` calls of a listing on one record. -/
def populate (st : Store) (stockSelect userSelect : Option (List String))
    (h : HistoryEntry) : HistoryView :=
  ⟨h,
   (st.stocks.find? (fun s => s._id == h.stock)).map (fun s => ⟨s, stockSelect⟩),
   (st.users.find? (fun u => u._id == h.user)).map (fun u => ⟨u, userSelect⟩)⟩

/-- The `name` of an error thrown by the query, as the handlers test it. -/
inductive ErrorName where
  | castError
  | validationError
  | other
deriving DecidableEq

/-- An error thrown by the query. -/
structure QueryError where
  name : ErrorName
  message : String
deriving DecidableEq

/-- The handler of `GET /history` in `src/routes/stock.js`; `err` is the error the
query throws, if any. -/
def getHistoryTransactional (err : Option QueryError) (st : Store) : Outcome :=
  match err with
  | some _ => ⟨⟨500, .message "เกิดข้อผิดพลาดในการดึงประวัติ"⟩, st, [.findHistory]⟩
  | none =>
    ⟨⟨200, .history ((StockHistory.findSorted st.history).map
        (populate st none (some ["name"])))⟩, st, [.findHistory]⟩

/-- The handler of `GET /history` in `src/src/routes/stock.js`; `userId` is
`req.userId` as left by the authentication middleware. -/
def getHistory (err : Option QueryError) (st : Store) (userId : JsVal) : Outcome :=
  if !truthy userId then ⟨⟨401, .message "กรุณาเข้าสู่ระบบ"⟩, st, []⟩
  else
    match err with
    | some e =>
      match e.name with
      | .castError => ⟨⟨400, .message "รหัสผู้ใช้ไม่ถูกต้อง"⟩, st, [.findHistory]⟩
      | .validationError => ⟨⟨400, .message "ข้อมูลไม่ถูกต้อง"⟩, st, [.findHistory]⟩
      | .other => ⟨⟨500, .message "เกิดข้อผิดพลาดในการดึงประวัติ"⟩, st, [.findHistory]⟩
    | none =>
      ⟨⟨200, .history ((StockHistory.findSorted st.history).map
          (populate st (some ["sku", "category", "quantity", "unit", "price", "image"])
            (some ["username", "name", "email"])))⟩, st, [.findHistory]⟩

/-- The handler of `GET /history/all` in `src/src/routes/stock.js`. -/
def getHistoryAll (err : Option QueryError) (st : Store) : Outcome :=
  match err with
  | some e => ⟨⟨500, .message e.message⟩, st, [.findHistory]⟩
  | none =>
    ⟨⟨200, .history ((StockHistory.findSorted st.history).map
        (populate st (some ["sku", "category"]) (some ["username"])))⟩, st, [.findHistory]⟩

/-! ## Sequences of calls -/

/-- Which of the two handlers serves a call. -/
inductive Variant where
  | transactional
  | compensating
deriving DecidableEq

/-- One withdraw request together with the environment it runs in. -/
structure Call where
  variant : Variant
  env : Env
  id : String
  body : WithdrawBody
  user : String
deriving DecidableEq

/-- Serve one call. -/
def withdraw (c : Call) (st : Store) : Outcome :=
  match c.variant with
  | .transactional => withdrawTransactional c.env st c.id c.body c.user
  | .compensating => withdrawCompensating c.env st c.id c.body c.user

/-- Serve the calls one after the other and return the final store. -/
def runCalls (st : Store) : List Call → Store
  | [] => st
  | c :: cs => runCalls (withdraw c st).store cs

/-- Every stored stock quantity is non-negative. -/
def Store.nonneg (st : Store) : Prop := ∀ s ∈ st.stocks, 0 ≤ s.quantity

/-! ## Two requests in flight

A handler gives up control at each `await`; between two of them it runs
without interruption, and each storage call is applied to the store in one
piece.  A request therefore advances through the phases below, one storage
call (or the local checks) per step, and a schedule says which of two
requests takes the next step.  The writes of a session transaction are
applied in a single step: the schedules cover the runs in which two
transactions do not overlap. -/

/-- Where a request stands. -/
inductive Phase where
  | start
  | loaded (stock : Option StockDoc)
  | saving (stock : StockDoc)
  | recording (stock : StockDoc)
  | reverting (stock : StockDoc)
  | finished (response : Response)
deriving DecidableEq

/-- The read: the identifier test, then `Stock.findById`. -/
def stepRead (c : Call) (st : Store) : Phase :=
  if !matchesObjectId c.id then .finished invalidIdentifier
  else if !c.env.findOk then .finished withdrawFailure
  else .loaded (Stock.findById st.stocks c.id)

/-- The checks made on the document that was read, ending with
`stock.quantity -= quantity` on the copy in memory. -/
def stepCheck (c : Call) : Option StockDoc → Phase
  | none => .finished notFound
  | some stock =>
    if !truthy c.body.quantity || !truthy c.body.reason then
      .finished (missingField c.body.quantity c.body.reason)
    else if isNaN c.body.quantity || jsLe c.body.quantity 0 then
      .finished invalidQuantity
    else if jsLt stock.fields.quantity c.body.quantity then
      .finished (insufficientStock stock.fields.quantity c.body.quantity)
    else .saving (stock.setQuantity (.num (jsSub stock.fields.quantity c.body.quantity)))

/-- The session transaction of the transactional handler, run in one piece. -/
def stepTransaction (c : Call) (stock1 : StockDoc) (st : Store) : Phase × Store :=
  if !c.env.sessionOk then (.finished withdrawFailure, st)
  else
    match stock1.saveInSession c.env.stockSaveOk c.env.tStock st.stocks with
    | none => (.finished withdrawFailure, st)
    | some (stock2, stocks2) =>
      match StockHistory.save stock2.fields._id c.body.quantity c.body.reason c.user
          c.env.historySaveOk c.env.tHistory st.history with
      | none => (.finished withdrawFailure, st)
      | some (_, history2) =>
        if c.env.commitOk then
          (.finished ⟨200, .stock stock2.fields⟩,
            { st with stocks := stocks2, history := history2 })
        else (.finished withdrawFailure, st)

/-- One step of a request served by the transactional handler. -/
def stepTransactional (c : Call) (ph : Phase) (st : Store) : Phase × Store :=
  match ph with
  | .start => (stepRead c st, st)
  | .loaded stock => (stepCheck c stock, st)
  | .saving stock1 => stepTransaction c stock1 st
  | .recording stock => (.recording stock, st)
  | .reverting stock => (.reverting stock, st)
  | .finished r => (.finished r, st)

/-- One step of a request served by the compensating handler. -/
def stepCompensating (c : Call) (ph : Phase) (st : Store) : Phase × Store :=
  match ph with
  | .start => (stepRead c st, st)
  | .loaded stock => (stepCheck c stock, st)
  | .saving stock1 =>
    match stock1.save c.env.stockSaveOk c.env.tStock st.stocks with
    | none => (.reverting stock1, st)
    | some (stock2, stocks2) => (.recording stock2, { st with stocks := stocks2 })
  | .recording stock2 =>
    match StockHistory.save stock2.fields._id c.body.quantity c.body.reason c.user
        c.env.historySaveOk c.env.tHistory st.history with
    | none => (.reverting stock2, st)
    | some (_, history2) =>
      (.finished ⟨200, .stock stock2.fields⟩, { st with history := history2 })
  | .reverting stock =>
    let reverted := stock.setQuantity (jsAdd stock.fields.quantity c.body.quantity)
    match reverted.save c.env.revertSaveOk c.env.tRevert st.stocks with
    | none => (.finished withdrawFailure, st)
    | some (_, stocks1) => (.finished withdrawFailure, { st with stocks := stocks1 })
  | .finished r => (.finished r, st)

/-- One step of a request. -/
def stepCall (c : Call) (ph : Phase) (st : Store) : Phase × Store :=
  match c.variant with
  | .transactional => stepTransactional c ph st
  | .compensating => stepCompensating c ph st

/-- Run a request on its own for `n` steps. -/
def runAlone (c : Call) : Nat → Phase × Store → Phase × Store
  | 0, r => r
  | n + 1, r => runAlone c n (stepCall c r.1 r.2)

/-- Two requests in flight over one store. -/
structure Race where
  first : Phase
  second : Phase
  store : Store
deriving DecidableEq

/-- Run two requests under a schedule: `false` lets the first request take its
next step, `true` the second. -/
def interleave (a b : Call) : List Bool → Race → Race
  | [], r => r
  | false :: s, r =>
    let next := stepCall a r.first r.store
    interleave a b s ⟨next.1, r.second, next.2⟩
  | true :: s, r =>
    let next := stepCall b r.second r.store
    interleave a b s ⟨r.first, next.1, next.2⟩

/-! ## Specification predicates -/

/-- The effect of a successful withdrawal of `n` units of `item`: the response
carries the item with its quantity lowered by `n`, the store holds that item
in the place of the old one and every other stock document as before, and
the history log has grown by exactly one record describing the withdrawal. -/
def Withdrawn (st : Store) (item : StockItem) (n : ℚ) (reason : JsVal) (user : String)
    (out : Outcome) : Prop :=
  ∃ (updated : StockItem) (h : HistoryEntry) (pre post : List StockItem),
    out.response = ⟨200, .stock updated⟩ ∧
    updated._id = item._id ∧ updated.quantity = item.quantity - n ∧
    out.store.stocks.find? (fun s => s._id == item._id) = some updated ∧
    st.stocks = pre ++ item :: post ∧ out.store.stocks = pre ++ updated :: post ∧
    out.store.history = st.history ++ [h] ∧
    h.stock = item._id ∧ h.quantity = n ∧ h.type = .withdraw ∧ h.user = user ∧
    castString reason = some h.reason ∧ (∀ s, reason = .str s → h.reason = s)

/-! ## Predicates on two requests in flight -/

/-- The request has saved its decrement: it is past its stock save. -/
def Phase.hasSaved : Phase → Bool
  | .recording _ => true
  | .finished r => r.status == 200
  | _ => false

/-- A request `c` for `n` units of the item `id`, which holds `q` units, that
passes every check and whose storage calls all succeed. -/
structure ValidRequest (id : String) (q n : ℚ) (c : Call) : Prop where
  id_eq : c.id = id
  id_ok : matchesObjectId id = true
  reads : toNumber c.body.quantity = .fin n
  pos : 0 < n
  le : n ≤ q
  reason : truthy c.body.reason = true
  user : matchesObjectId c.user = true
  findOk : c.env.findOk = true
  sessionOk : c.env.sessionOk = true
  stockSaveOk : c.env.stockSaveOk = true
  historySaveOk : c.env.historySaveOk = true
  commitOk : c.env.commitOk = true

/-- What a valid request for `n` units can have reached while another valid
request, for `m` units, is in flight: the document it holds was read at
quantity `q`, or at `q - m` after the other request saved; its answer is a
success at `q - n` or InsufficientStock with `q - m` available. -/
def PhaseOk (id : String) (q n m : ℚ) (c : Call) (otherSaved : Bool) : Phase → Prop
  | .start => True
  | .loaded d =>
    ∃ it, d = some ⟨it, false⟩ ∧ it._id = id ∧
      (it.quantity = q ∨ (it.quantity = q - m ∧ otherSaved = true))
  | .saving d => ∃ it, d = ⟨it, false⟩ ∧ it._id = id ∧ it.quantity = q - n
  | .recording d =>
    c.variant = .compensating ∧ ∃ it, d = ⟨it, false⟩ ∧ it._id = id ∧ it.quantity = q - n
  | .reverting _ => False
  | .finished r =>
    (∃ it, r = ⟨200, .stock it⟩ ∧ it.quantity = q - n) ∨
    (r = insufficientStock (q - m) c.body.quantity ∧ otherSaved = true)

/-- The invariant of two valid requests `x` (for `n` units) and `y` (for `m`
units) of the item `id`: the stored item holds `q` while neither has saved,
and otherwise what the request that saved last left. -/
def RaceInvariant (id : String) (pre post : List StockItem) (users : List User) (q n m : ℚ)
    (x y : Call) (phX phY : Phase) (store : Store) : Prop :=
  ∃ (cur : StockItem) (hist : List HistoryEntry),
    store = ⟨pre ++ cur :: post, hist, users⟩ ∧ cur._id = id ∧
    ((cur.quantity = q ∧ phX.hasSaved = false ∧ phY.hasSaved = false) ∨
      (cur.quantity = q - n ∧ phX.hasSaved = true) ∨
      (cur.quantity = q - m ∧ phY.hasSaved = true)) ∧
    PhaseOk id q n m x phY.hasSaved phX ∧ PhaseOk id q m n y phX.hasSaved phY

/-- The invariant once `x` has saved `q - n` while `y` had not read: `y` reads
`q - n` and is answered InsufficientStock. -/
def LateReader (id : String) (pre post : List StockItem) (users : List User) (q n : ℚ)
    (x y : Call) (phX phY : Phase) (store : Store) : Prop :=
  ∃ (cur : StockItem) (hist : List HistoryEntry),
    store = ⟨pre ++ cur :: post, hist, users⟩ ∧ cur._id = id ∧ cur.quantity = q - n ∧
    ((x.variant = .compensating ∧ ∃ it, phX = .recording ⟨it, false⟩) ∨
      ∃ it, phX = .finished ⟨200, .stock it⟩) ∧
    (phY = .start ∨
      (∃ it, phY = .loaded (some ⟨it, false⟩) ∧ it.quantity = q - n) ∨
      phY = .finished (insufficientStock (q - n) y.body.quantity))

/-! ## Sample data -/

/-- A stock document holding ten units. -/
def sampleItem : StockItem :=
  ⟨"0123456789abcdef01234567", "P-001", "SKU-1", "sample", 10, 3, none, "misc",
   "aaaaaaaaaaaaaaaaaaaaaaaa", 1, 1⟩

/-- A second stock document. -/
def otherItem : StockItem :=
  ⟨"89abcdef0123456701234567", "P-002", "SKU-2", "other", 7, 2, none, "misc",
   "aaaaaaaaaaaaaaaaaaaaaaaa", 2, 2⟩

/-- A store with two stock documents and an empty history log. -/
def sampleStore : Store := ⟨[otherItem, sampleItem], [], []⟩

/-- An environment in which every storage call succeeds. -/
def allOk : Env := ⟨true, true, true, true, true, true, 100, 101, 102⟩

/-- The acting user of the samples. -/
def sampleUser : String := "bbbbbbbbbbbbbbbbbbbbbbbb"

/-- A second acting user. -/
def otherUser : String := "cccccccccccccccccccccccc"

/-- A store whose history log holds three records, not in order of creation. -/
def loggedStore : Store :=
  ⟨[otherItem, sampleItem],
   [⟨sampleItem._id, 2, "sale", .withdraw, sampleUser, 30, 30⟩,
    ⟨otherItem._id, 1, "gift", .withdraw, sampleUser, 90, 90⟩,
    ⟨sampleItem._id, 4, "sale", .withdraw, sampleUser, 50, 50⟩],
   [⟨sampleUser, "bee", "Bee", "bee@example.org"⟩]⟩

/-- A request for six of the ten units of the sample item. -/
def sixUnits (v : Variant) (user : String) : Call :=
  ⟨v, allOk, sampleItem._id, ⟨.num (.fin 6), .str "sale"⟩, user⟩

/-- A schedule in which both requests read and check before either saves. -/
def readsFirst : List Bool := [false, true, false, true, false, false, true, true]

/-! ## Coercion facts -/

theorem stringToNumber_empty : stringToNumber "" = .fin 0 := by
  with_unfolding_all decide

theorem truthy_of_toNumber {q : JsVal} {n : ℚ} (h : toNumber q = .fin n) (hn : n ≠ 0) :
    truthy q = true := by
  cases q with
  | undefined => simp [toNumber] at h
  | null =>
    simp only [toNumber, JsNum.fin.injEq] at h
    exact absurd h.symm hn
  | bool b =>
    cases b
    · simp only [toNumber, Bool.false_eq_true, if_false, JsNum.fin.injEq] at h
      exact absurd h.symm hn
    · rfl
  | num m =>
    simp only [toNumber] at h
    subst h
    simpa [truthy] using hn
  | str s =>
    simp only [toNumber] at h
    simp only [truthy, bne_iff_ne, ne_eq]
    intro hs
    subst hs
    rw [stringToNumber_empty, JsNum.fin.injEq] at h
    exact hn h.symm

theorem castNumber_of_truthy {q : JsVal} {n : ℚ} (ht : truthy q = true)
    (h : toNumber q = .fin n) : castNumber q = some n := by
  cases q with
  | undefined => simp [truthy] at ht
  | null => simp [truthy] at ht
  | bool b =>
    simp only [toNumber, JsNum.fin.injEq] at h
    simp [castNumber, h]
  | num m =>
    simp only [toNumber] at h
    subst h
    rfl
  | str s =>
    simp only [truthy, bne_iff_ne, ne_eq] at ht
    simp only [toNumber] at h
    simp [castNumber, ht, h]

theorem castString_of_truthy {r : JsVal} (h : truthy r = true) : ∃ s, castString r = some s := by
  cases r with
  | undefined => simp [truthy] at h
  | null => simp [truthy] at h
  | bool b => exact ⟨_, rfl⟩
  | num n => exact ⟨_, rfl⟩
  | str s =>
    simp only [truthy, bne_iff_ne, ne_eq] at h
    exact ⟨s, by simp [castString, h]⟩

theorem castObjectId_of_matches {u : String} (h : matchesObjectId u = true) :
    castObjectId u = some u := by
  simp [castObjectId, h]

/-! ## Facts about the models' operations -/

@[simp] theorem withQuantity_id (s : StockItem) (q : ℚ) : (s.withQuantity q)._id = s._id := rfl

@[simp] theorem withQuantity_quantity (s : StockItem) (q : ℚ) :
    (s.withQuantity q).quantity = q := rfl

@[simp] theorem withUpdatedAt_id (s : StockItem) (t : Nat) : (s.withUpdatedAt t)._id = s._id := rfl

@[simp] theorem withUpdatedAt_quantity (s : StockItem) (t : Nat) :
    (s.withUpdatedAt t).quantity = s.quantity := rfl

theorem replaceStock_append (s item : StockItem) (pre post : List StockItem)
    (hpre : ∀ t ∈ pre, (t._id == s._id) = false) (hid : item._id = s._id) :
    replaceStock s (pre ++ item :: post) = some (pre ++ s :: post) := by
  induction pre with
  | nil => simp [replaceStock, hid]
  | cons t ts ih =>
    have ht : (t._id == s._id) = false := hpre t (List.mem_cons_self _ _)
    have hts : ∀ u ∈ ts, (u._id == s._id) = false :=
      fun u hu => hpre u (List.mem_cons_of_mem _ hu)
    simp [replaceStock, ht, ih hts]

theorem replaceStock_mem {s : StockItem} {l r : List StockItem}
    (h : replaceStock s l = some r) : ∀ t ∈ r, t = s ∨ t ∈ l := by
  induction l generalizing r with
  | nil => simp [replaceStock] at h
  | cons u us ih =>
    simp only [replaceStock] at h
    split at h
    · cases h
      intro t ht
      rcases List.mem_cons.mp ht with rfl | ht
      · exact Or.inl rfl
      · exact Or.inr (List.mem_cons_of_mem _ ht)
    · cases hr : replaceStock s us with
      | none => simp [hr] at h
      | some r' =>
        simp [hr] at h
        subst h
        intro t ht
        rcases List.mem_cons.mp ht with rfl | ht
        · exact Or.inr (List.mem_cons_self _ _)
        · rcases ih hr t ht with h1 | h1
          · exact Or.inl h1
          · exact Or.inr (List.mem_cons_of_mem _ h1)

theorem save_nonneg {d d' : StockDoc} {ok : Bool} {now : Nat} {stocks stocks' : List StockItem}
    (h : d.save ok now stocks = some (d', stocks'))
    (hs : ∀ s ∈ stocks, 0 ≤ s.quantity) : ∀ s ∈ stocks', 0 ≤ s.quantity := by
  unfold StockDoc.save at h
  simp only at h
  split at h
  · simp at h
  · rename_i hc
    simp only [Bool.or_eq_true, decide_eq_true_eq, Bool.not_eq_true', not_or, not_lt] at hc
    cases hr : replaceStock (d.fields.withUpdatedAt now) stocks with
    | none => simp [hr] at h
    | some r =>
      simp [hr] at h
      obtain ⟨-, rfl⟩ := h
      intro s hs'
      rcases replaceStock_mem hr s hs' with rfl | hmem
      · exact hc.1.2
      · exact hs s hmem

/-! ## The checks shared by both handlers -/

theorem find_split {stocks : List StockItem} {id : String} {item : StockItem}
    (h : stocks.find? (fun s => s._id == id) = some item) :
    item._id = id ∧ ∃ pre post, stocks = pre ++ item :: post ∧
      ∀ t ∈ pre, (t._id == id) = false := by
  rw [List.find?_eq_some] at h
  obtain ⟨h1, pre, post, h2, h3⟩ := h
  refine ⟨by simpa using h1, pre, post, h2, ?_⟩
  intro t ht
  simpa using h3 t ht

theorem find_updated {pre post : List StockItem} {id : String} (s : StockItem)
    (hpre : ∀ t ∈ pre, (t._id == id) = false) (hs : s._id = id) :
    (pre ++ s :: post).find? (fun t => t._id == id) = some s := by
  induction pre with
  | nil => simp [hs]
  | cons t ts ih =>
    have ht : (t._id == id) = false := hpre t (List.mem_cons_self _ _)
    have hts : ∀ u ∈ ts, (u._id == id) = false :=
      fun u hu => hpre u (List.mem_cons_of_mem _ hu)
    simp [List.find?_cons, ht, ih hts]

theorem findById_eq {stocks : List StockItem} {id : String} {item : StockItem}
    (h : stocks.find? (fun s => s._id == id) = some item) :
    Stock.findById stocks id = some ⟨item, false⟩ := by
  simp [Stock.findById, h]

theorem setQuantity_sub (item : StockItem) (q : JsVal) (n : ℚ) (hq : toNumber q = .fin n) :
    (StockDoc.mk item false).setQuantity (.num (jsSub item.quantity q)) =
      ⟨item.withQuantity (item.quantity - n), false⟩ := by
  simp [StockDoc.setQuantity, jsSub, hq, castNumber]

theorem save_eq (item : StockItem) (old : StockItem) (now : Nat) (pre post : List StockItem)
    (hq : 0 ≤ item.quantity) (hid : old._id = item._id)
    (hpre : ∀ t ∈ pre, (t._id == item._id) = false) :
    (StockDoc.mk item false).save true now (pre ++ old :: post) =
      some (⟨item.withUpdatedAt now, false⟩,
        pre ++ item.withUpdatedAt now :: post) := by
  have hrep := replaceStock_append (item.withUpdatedAt now) old pre post hpre hid
  have h3 : ¬ item.quantity < 0 := not_lt.mpr hq
  simp [StockDoc.save, h3, hrep]

theorem save_rejected (d : StockDoc) (now : Nat) (stocks : List StockItem) :
    d.save false now stocks = none := by
  simp [StockDoc.save]

theorem history_save_eq (stock : String) (q reason : JsVal) (user : String) (ok : Bool)
    (now : Nat) (history : List HistoryEntry) (n : ℚ) (r : String)
    (hq : castNumber q = some n) (hr : castString reason = some r) :
    StockHistory.save stock q reason user ok now history =
      if (ok && matchesObjectId user) = true then
        some (⟨stock, n, r, .withdraw, user, now, now⟩,
          history ++ [⟨stock, n, r, .withdraw, user, now, now⟩])
      else none := by
  cases hu : matchesObjectId user <;> cases ok <;>
    simp [StockHistory.save, hq, hr, castObjectId, hu]

theorem checks_pass {body : WithdrawBody} {n k : ℚ}
    (hq : toNumber body.quantity = .fin n) (hpos : 0 < n)
    (hr : truthy body.reason = true) (hsuff : n ≤ k) :
    (!truthy body.quantity || !truthy body.reason) = false ∧
    (isNaN body.quantity || jsLe body.quantity 0) = false ∧
    jsLt k body.quantity = false := by
  have htq : truthy body.quantity = true := truthy_of_toNumber hq (ne_of_gt hpos)
  have h1 : ¬ n ≤ 0 := not_le.mpr hpos
  have h2 : ¬ k < n := not_lt.mpr hsuff
  simp [htq, hr, isNaN, hq, jsLe, jsLt, h1, h2]

theorem transactional_eval (env : Env) (st : Store) (id : String) (body : WithdrawBody)
    (user : String) (item : StockItem) (n : ℚ) (r : String) (pre post : List StockItem)
    (hid : matchesObjectId id = true)
    (hfind : st.stocks.find? (fun s => s._id == id) = some item)
    (hsplit : st.stocks = pre ++ item :: post)
    (hpre : ∀ t ∈ pre, (t._id == id) = false)
    (hq : toNumber body.quantity = .fin n) (hpos : 0 < n)
    (hr : truthy body.reason = true) (hrs : castString body.reason = some r)
    (hsuff : n ≤ item.quantity)
    (hfindOk : env.findOk = true) (hsession : env.sessionOk = true) :
    withdrawTransactional env st id body user =
      if env.stockSaveOk = true then
        if (env.historySaveOk && matchesObjectId user) = true then
          if env.commitOk = true then
            ⟨⟨200, .stock ((item.withQuantity (item.quantity - n)).withUpdatedAt env.tStock)⟩,
             ⟨pre ++ (item.withQuantity (item.quantity - n)).withUpdatedAt env.tStock :: post,
              st.history ++ [⟨item._id, n, r, .withdraw, user, env.tHistory, env.tHistory⟩],
              st.users⟩,
             [.findStock id, .startSession, .saveStock id (item.quantity - n),
              .saveHistory item._id, .commitTransaction]⟩
          else
            ⟨withdrawFailure, st,
             [.findStock id, .startSession, .saveStock id (item.quantity - n),
              .saveHistory item._id, .commitTransaction, .abortTransaction]⟩
        else
          ⟨withdrawFailure, st,
           [.findStock id, .startSession, .saveStock id (item.quantity - n),
            .saveHistory item._id, .abortTransaction]⟩
      else
        ⟨withdrawFailure, st,
         [.findStock id, .startSession, .saveStock id (item.quantity - n),
          .abortTransaction]⟩ := by
  have htq : truthy body.quantity = true := truthy_of_toNumber hq (ne_of_gt hpos)
  have hcn : castNumber body.quantity = some n := castNumber_of_truthy htq hq
  have hitem : item._id = id := (find_split hfind).1
  obtain ⟨c1, c2, c3⟩ := checks_pass hq hpos hr hsuff
  have hsave := save_eq (item.withQuantity (item.quantity - n)) item env.tStock pre post
    (by simpa using hsuff) rfl (by simpa [hitem] using hpre)
  have hfind2 := hfind
  rw [hsplit] at hfind2
  unfold withdrawTransactional
  simp only [hid, hfindOk, hsplit, findById_eq hfind2, c1, c2, c3, setQuantity_sub item _ n hq,
    hsession, abortWithdraw, StockDoc.saveInSession]
  cases hs : env.stockSaveOk with
  | false => simp [save_rejected]
  | true =>
    simp only [hsave, history_save_eq _ _ _ _ _ _ _ n r hcn hrs]
    cases hh : (env.historySaveOk && matchesObjectId user) with
    | false => simp
    | true => cases hc : env.commitOk <;> simp

theorem compensating_eval (env : Env) (st : Store) (id : String) (body : WithdrawBody)
    (user : String) (item : StockItem) (n : ℚ) (r : String) (pre post : List StockItem)
    (hid : matchesObjectId id = true)
    (hfind : st.stocks.find? (fun s => s._id == id) = some item)
    (hsplit : st.stocks = pre ++ item :: post)
    (hpre : ∀ t ∈ pre, (t._id == id) = false)
    (hq : toNumber body.quantity = .fin n) (hpos : 0 < n)
    (hr : truthy body.reason = true) (hrs : castString body.reason = some r)
    (hsuff : n ≤ item.quantity)
    (hfindOk : env.findOk = true) :
    withdrawCompensating env st id body user =
      if env.stockSaveOk = true then
        if (env.historySaveOk && matchesObjectId user) = true then
          ⟨⟨200, .stock ((item.withQuantity (item.quantity - n)).withUpdatedAt env.tStock)⟩,
           ⟨pre ++ (item.withQuantity (item.quantity - n)).withUpdatedAt env.tStock :: post,
            st.history ++ [⟨item._id, n, r, .withdraw, user, env.tHistory, env.tHistory⟩],
            st.users⟩,
           [.findStock id, .saveStock id (item.quantity - n), .saveHistory item._id]⟩
        else
          revertWithdraw env
            ⟨pre ++ (item.withQuantity (item.quantity - n)).withUpdatedAt env.tStock :: post,
              st.history, st.users⟩
            ⟨(item.withQuantity (item.quantity - n)).withUpdatedAt env.tStock, false⟩
            body.quantity
            [.findStock id, .saveStock id (item.quantity - n), .saveHistory item._id]
      else
        revertWithdraw env st ⟨item.withQuantity (item.quantity - n), false⟩ body.quantity
          [.findStock id, .saveStock id (item.quantity - n)] := by
  have htq : truthy body.quantity = true := truthy_of_toNumber hq (ne_of_gt hpos)
  have hcn : castNumber body.quantity = some n := castNumber_of_truthy htq hq
  have hitem : item._id = id := (find_split hfind).1
  obtain ⟨c1, c2, c3⟩ := checks_pass hq hpos hr hsuff
  have hsave := save_eq (item.withQuantity (item.quantity - n)) item env.tStock pre post
    (by simpa using hsuff) rfl (by simpa [hitem] using hpre)
  have hfind2 := hfind
  rw [hsplit] at hfind2
  unfold withdrawCompensating
  simp only [hid, hfindOk, hsplit, findById_eq hfind2, c1, c2, c3, setQuantity_sub item _ n hq]
  cases hs : env.stockSaveOk with
  | false => simp [save_rejected, ← hsplit]
  | true =>
    simp only [hsave, history_save_eq _ _ _ _ _ _ _ n r hcn hrs]
    cases hh : (env.historySaveOk && matchesObjectId user) <;> simp

theorem compensating_success_eq (env : Env) (st : Store) (id : String) (body : WithdrawBody)
    (user : String) (item : StockItem) (n : ℚ) (r : String) (pre post : List StockItem)
    (hid : matchesObjectId id = true)
    (hfind : st.stocks.find? (fun s => s._id == id) = some item)
    (hsplit : st.stocks = pre ++ item :: post)
    (hpre : ∀ t ∈ pre, (t._id == id) = false)
    (hq : toNumber body.quantity = .fin n) (hpos : 0 < n)
    (hr : truthy body.reason = true) (hrs : castString body.reason = some r)
    (hsuff : n ≤ item.quantity) (huser : matchesObjectId user = true)
    (hfindOk : env.findOk = true) (hstock : env.stockSaveOk = true)
    (hhist : env.historySaveOk = true) :
    withdrawCompensating env st id body user =
      ⟨⟨200, .stock ((item.withQuantity (item.quantity - n)).withUpdatedAt env.tStock)⟩,
       ⟨pre ++ (item.withQuantity (item.quantity - n)).withUpdatedAt env.tStock :: post,
        st.history ++ [⟨item._id, n, r, .withdraw, user, env.tHistory, env.tHistory⟩],
        st.users⟩,
       [.findStock id, .saveStock id (item.quantity - n), .saveHistory item._id]⟩ := by
  rw [compensating_eval env st id body user item n r pre post hid hfind hsplit hpre hq hpos hr
    hrs hsuff hfindOk]
  simp [hstock, hhist, huser]

theorem transactional_success_eq (env : Env) (st : Store) (id : String) (body : WithdrawBody)
    (user : String) (item : StockItem) (n : ℚ) (r : String) (pre post : List StockItem)
    (hid : matchesObjectId id = true)
    (hfind : st.stocks.find? (fun s => s._id == id) = some item)
    (hsplit : st.stocks = pre ++ item :: post)
    (hpre : ∀ t ∈ pre, (t._id == id) = false)
    (hq : toNumber body.quantity = .fin n) (hpos : 0 < n)
    (hr : truthy body.reason = true) (hrs : castString body.reason = some r)
    (hsuff : n ≤ item.quantity) (huser : matchesObjectId user = true)
    (hfindOk : env.findOk = true) (hsession : env.sessionOk = true)
    (hstock : env.stockSaveOk = true) (hhist : env.historySaveOk = true)
    (hcommit : env.commitOk = true) :
    withdrawTransactional env st id body user =
      ⟨⟨200, .stock ((item.withQuantity (item.quantity - n)).withUpdatedAt env.tStock)⟩,
       ⟨pre ++ (item.withQuantity (item.quantity - n)).withUpdatedAt env.tStock :: post,
        st.history ++ [⟨item._id, n, r, .withdraw, user, env.tHistory, env.tHistory⟩],
        st.users⟩,
       [.findStock id, .startSession, .saveStock id (item.quantity - n),
        .saveHistory item._id, .commitTransaction]⟩ := by
  rw [transactional_eval env st id body user item n r pre post hid hfind hsplit hpre hq hpos hr
    hrs hsuff hfindOk hsession]
  simp [hstock, hhist, hcommit, huser]

theorem withdrawn_of_eq {st : Store} {item updated : StockItem} {n : ℚ} {reason : JsVal}
    {user r : String} {pre post : List StockItem} {out : Outcome} {h : HistoryEntry} {tr : List Op}
    (hout : out = ⟨⟨200, .stock updated⟩, ⟨pre ++ updated :: post, st.history ++ [h], st.users⟩, tr⟩)
    (hsplit : st.stocks = pre ++ item :: post)
    (hpre : ∀ t ∈ pre, (t._id == item._id) = false)
    (hid : updated._id = item._id) (hqty : updated.quantity = item.quantity - n)
    (hh : h = ⟨item._id, n, r, .withdraw, user, h.createdAt, h.updatedAt⟩)
    (hr : truthy reason = true) (hrs : castString reason = some r) :
    Withdrawn st item n reason user out := by
  subst hout
  refine ⟨updated, h, pre, post, rfl, hid, hqty, ?_, hsplit, rfl, rfl, ?_, ?_, ?_, ?_, ?_, ?_⟩
  · exact find_updated updated hpre hid
  · rw [hh]
  · rw [hh]
  · rw [hh]
  · rw [hh]
  · rw [hh]; exact hrs
  · intro s hs
    subst hs
    rw [hh]
    simp only [truthy, bne_iff_ne, ne_eq] at hr
    simp [castString, hr] at hrs
    exact hrs.symm

/-! ## Non-negativity is preserved -/

theorem revertWithdraw_nonneg (env : Env) (st : Store) (stock : StockDoc) (q : JsVal)
    (tr : List Op) (h : st.nonneg) : (revertWithdraw env st stock q tr).store.nonneg := by
  unfold revertWithdraw
  simp only
  split
  · exact h
  · rename_i heq
    exact save_nonneg heq h

theorem withdrawTransactional_nonneg (env : Env) (st : Store) (id : String)
    (body : WithdrawBody) (user : String) (h : st.nonneg) :
    (withdrawTransactional env st id body user).store.nonneg := by
  unfold withdrawTransactional abortWithdraw StockDoc.saveInSession
  simp only
  repeat' split
  all_goals first
    | exact h
    | (rename_i heq _ _ _ _ _
       exact save_nonneg heq h)

theorem withdrawCompensating_nonneg (env : Env) (st : Store) (id : String)
    (body : WithdrawBody) (user : String) (h : st.nonneg) :
    (withdrawCompensating env st id body user).store.nonneg := by
  unfold withdrawCompensating
  simp only
  repeat' split
  all_goals first
    | exact h
    | exact revertWithdraw_nonneg _ _ _ _ _ h
    | (rename_i hsave _ _
       exact revertWithdraw_nonneg _ _ _ _ _ (save_nonneg hsave h))
    | (rename_i hsave _ _ _ _
       exact save_nonneg hsave h)

theorem withdraw_nonneg (c : Call) (st : Store) (h : st.nonneg) : (withdraw c st).store.nonneg := by
  unfold withdraw
  split
  · exact withdrawTransactional_nonneg _ _ _ _ _ h
  · exact withdrawCompensating_nonneg _ _ _ _ _ h

theorem runCalls_nonneg (calls : List Call) (st : Store) (h : st.nonneg) :
    (runCalls st calls).nonneg := by
  induction calls generalizing st with
  | nil => exact h
  | cons c cs ih => exact ih _ (withdraw_nonneg c st h)

/-! ## Facts about the sample data -/

theorem sample_id_matches : matchesObjectId sampleItem._id = true := by decide

theorem sample_user_matches : matchesObjectId sampleUser = true := by decide

theorem sample_find :
    sampleStore.stocks.find? (fun s => s._id == sampleItem._id) = some sampleItem := by decide

theorem sample_pre : ∀ t ∈ [otherItem], (t._id == sampleItem._id) = false := by decide

theorem five_reads_five : stringToNumber "5" = .fin 5 := by with_unfolding_all decide

theorem five_plus_five : jsAdd 5 (.str "5") = .str "55" := by with_unfolding_all decide

theorem cast_fifty_five : castNumber (.str "55") = some 55 := by with_unfolding_all decide

/-! ## Claims -/

/-- C1: a withdraw request that passes every check (well-formed id, existing
item, quantity reading as a positive number `n`, non-empty reason, `n` not
above the stock), made by an acting user whose id the history record
accepts, and whose storage calls succeed is answered, by either handler,
with the item at quantity `old - n`; the store holds that same item,
every other stock document is unchanged, and exactly one history record is
appended, with the item's id, quantity `n`, the reason supplied, type
`withdraw` and the acting user. -/
theorem withdraw_success (env : Env) (st : Store) (id : String) (body : WithdrawBody)
    (user : String) (item : StockItem) (n : ℚ)
    (hid : matchesObjectId id = true)
    (hfind : st.stocks.find? (fun s => s._id == id) = some item)
    (hq : toNumber body.quantity = .fin n) (hpos : 0 < n)
    (hr : truthy body.reason = true)
    (hsuff : n ≤ item.quantity) (huser : matchesObjectId user = true)
    (hfindOk : env.findOk = true) (hstock : env.stockSaveOk = true)
    (hhist : env.historySaveOk = true) :
    (env.sessionOk = true → env.commitOk = true →
      Withdrawn st item n body.reason user (withdrawTransactional env st id body user)) ∧
    Withdrawn st item n body.reason user (withdrawCompensating env st id body user) := by
  obtain ⟨hitem, pre, post, hsplit, hpre⟩ := find_split hfind
  obtain ⟨r, hrs⟩ := castString_of_truthy hr
  have hpre2 : ∀ t ∈ pre, (t._id == item._id) = false := by simpa [hitem] using hpre
  constructor
  · intro hsession hcommit
    exact withdrawn_of_eq
      (transactional_success_eq env st id body user item n r pre post hid hfind hsplit hpre hq
        hpos hr hrs hsuff huser hfindOk hsession hstock hhist hcommit)
      hsplit hpre2 rfl rfl rfl hr hrs
  · exact withdrawn_of_eq
      (compensating_success_eq env st id body user item n r pre post hid hfind hsplit hpre hq
        hpos hr hrs hsuff huser hfindOk hstock hhist)
      hsplit hpre2 rfl rfl rfl hr hrs

/-- Witness of C1: five of the ten units of the sample item are withdrawn for
the reason `sale`. -/
theorem withdraw_success_witness :
    (allOk.sessionOk = true → allOk.commitOk = true →
      Withdrawn sampleStore sampleItem 5 (.str "sale") sampleUser
        (withdrawTransactional allOk sampleStore sampleItem._id ⟨.num (.fin 5), .str "sale"⟩
          sampleUser)) ∧
    Withdrawn sampleStore sampleItem 5 (.str "sale") sampleUser
      (withdrawCompensating allOk sampleStore sampleItem._id ⟨.num (.fin 5), .str "sale"⟩ sampleUser) :=
  withdraw_success allOk sampleStore sampleItem._id ⟨.num (.fin 5), .str "sale"⟩ sampleUser
    sampleItem 5 (by decide) (by decide) rfl (by norm_num) (by decide)
    (by norm_num [sampleItem]) (by decide) (by decide) (by decide) (by decide)

/-- C2: stock quantity is never negative.  From a store whose stock quantities
are all non-negative, a withdraw call served by either handler leaves every
stored quantity non-negative, whatever the request and whatever the outcome
of the storage calls (rejection by a check, success, failure with abort or
with the compensating save); hence the same holds after any finite sequence
of calls served one after the other. -/
theorem quantity_never_negative (st : Store) (h : st.nonneg) :
    (∀ (env : Env) (id : String) (body : WithdrawBody) (user : String),
      (withdrawTransactional env st id body user).store.nonneg ∧
      (withdrawCompensating env st id body user).store.nonneg) ∧
    (∀ calls : List Call, (runCalls st calls).nonneg) :=
  ⟨fun env id body user =>
    ⟨withdrawTransactional_nonneg env st id body user h,
     withdrawCompensating_nonneg env st id body user h⟩,
   fun calls => runCalls_nonneg calls st h⟩

/-- Witness of C2: the sample store, whose quantities are 7 and 10. -/
theorem quantity_never_negative_witness :
    sampleStore.nonneg ∧
    (∀ (env : Env) (id : String) (body : WithdrawBody) (user : String),
      (withdrawTransactional env sampleStore id body user).store.nonneg ∧
      (withdrawCompensating env sampleStore id body user).store.nonneg) ∧
    (∀ calls : List Call, (runCalls sampleStore calls).nonneg) :=
  have h : sampleStore.nonneg := by
    intro s hs
    simp only [sampleStore, List.mem_cons, List.mem_singleton, List.not_mem_nil, or_false] at hs
    rcases hs with rfl | rfl <;> norm_num [otherItem, sampleItem]
  ⟨h, quantity_never_negative sampleStore h⟩

/-- C3: a request that passes the checks on the id, the item, the quantity
(reading as a positive number `n`) and the reason, and asks for more than the
item holds, is answered by either handler with status 400, the message
`จำนวนสินค้าไม่เพียงพอ`, `available` set to the item's quantity and `requested` to
the quantity asked for; the store is unchanged and the only storage call is
the read. -/
theorem withdraw_insufficient (env : Env) (st : Store) (id : String) (body : WithdrawBody)
    (user : String) (item : StockItem) (n : ℚ)
    (hid : matchesObjectId id = true)
    (hfindOk : env.findOk = true)
    (hfind : st.stocks.find? (fun s => s._id == id) = some item)
    (hq : toNumber body.quantity = .fin n) (hpos : 0 < n)
    (hr : truthy body.reason = true)
    (hlt : item.quantity < n) :
    withdrawTransactional env st id body user =
      ⟨⟨400, .insufficient "จำนวนสินค้าไม่เพียงพอ" item.quantity body.quantity⟩, st,
        [.findStock id]⟩ ∧
    withdrawCompensating env st id body user =
      ⟨⟨400, .insufficient "จำนวนสินค้าไม่เพียงพอ" item.quantity body.quantity⟩, st,
        [.findStock id]⟩ := by
  have htq : truthy body.quantity = true := truthy_of_toNumber hq (ne_of_gt hpos)
  have h1 : ¬ n ≤ 0 := not_le.mpr hpos
  constructor
  · simp [withdrawTransactional, hid, hfindOk, findById_eq hfind, htq, hr, isNaN, hq, jsLe,
      jsLt, h1, hlt, insufficientStock]
  · simp [withdrawCompensating, hid, hfindOk, findById_eq hfind, htq, hr, isNaN, hq, jsLe,
      jsLt, h1, hlt, insufficientStock]

/-- Witness of C3: twelve units are asked of the sample item, which holds ten. -/
theorem withdraw_insufficient_witness :
    withdrawTransactional allOk sampleStore sampleItem._id ⟨.num (.fin 12), .str "sale"⟩ sampleUser =
      ⟨⟨400, .insufficient "จำนวนสินค้าไม่เพียงพอ" 10 (.num (.fin 12))⟩, sampleStore,
        [.findStock sampleItem._id]⟩ ∧
    withdrawCompensating allOk sampleStore sampleItem._id ⟨.num (.fin 12), .str "sale"⟩ sampleUser =
      ⟨⟨400, .insufficient "จำนวนสินค้าไม่เพียงพอ" 10 (.num (.fin 12))⟩, sampleStore,
        [.findStock sampleItem._id]⟩ :=
  withdraw_insufficient allOk sampleStore sampleItem._id ⟨.num (.fin 12), .str "sale"⟩ sampleUser
    sampleItem 12 (by decide) (by decide) (by decide) rfl (by norm_num) (by decide)
    (by norm_num [sampleItem])

/-- C4 as stated fails: with a well-formed id of an existing item, the quantity
`0` (which is `<= 0`) and the reason `sale` get the MissingField response, and
so does the quantity `-5` with an empty reason; neither gets InvalidQuantity. -/
theorem invalid_quantity_counterexample :
    jsLe (.num (.fin 0)) 0 = true ∧
    (withdrawTransactional allOk sampleStore sampleItem._id ⟨.num (.fin 0), .str "sale"⟩
        sampleUser).response =
      ⟨400, .missing "กรุณาระบุจำนวนและเหตุผล" (some "กรุณาระบุจำนวน") none⟩ ∧
    (withdrawCompensating allOk sampleStore sampleItem._id ⟨.num (.fin 0), .str "sale"⟩
        sampleUser).response =
      ⟨400, .missing "กรุณาระบุจำนวนและเหตุผล" (some "กรุณาระบุจำนวน") none⟩ ∧
    jsLe (.num (.fin (-5))) 0 = true ∧
    (withdrawTransactional allOk sampleStore sampleItem._id ⟨.num (.fin (-5)), .str ""⟩
        sampleUser).response =
      ⟨400, .missing "กรุณาระบุจำนวนและเหตุผล" none (some "กรุณาระบุเหตุผล")⟩ ∧
    (withdrawCompensating allOk sampleStore sampleItem._id ⟨.num (.fin (-5)), .str ""⟩
        sampleUser).response =
      ⟨400, .missing "กรุณาระบุจำนวนและเหตุผล" none (some "กรุณาระบุเหตุผล")⟩ ∧
    (⟨400, .missing "กรุณาระบุจำนวนและเหตุผล" (some "กรุณาระบุจำนวน") none⟩ : Response) ≠
      invalidQuantity ∧
    (⟨400, .missing "กรุณาระบุจำนวนและเหตุผล" none (some "กรุณาระบุเหตุผล")⟩ : Response) ≠
      invalidQuantity := by
  refine ⟨?_, ?_, ?_, ?_, ?_, ?_, ?_, ?_⟩
  · simp [jsLe, toNumber]
  · simp [withdrawTransactional, sample_id_matches, allOk, findById_eq sample_find, truthy,
      missingField]
  · simp [withdrawCompensating, sample_id_matches, allOk, findById_eq sample_find, truthy,
      missingField]
  · simp [jsLe, toNumber]
  · simp [withdrawTransactional, sample_id_matches, allOk, findById_eq sample_find, truthy,
      missingField]
  · simp [withdrawCompensating, sample_id_matches, allOk, findById_eq sample_find, truthy,
      missingField]
  · simp [invalidQuantity]
  · simp [invalidQuantity]

/-- C4, amended: for a well-formed id of an existing item, a falsy quantity
(absent, `null`, `0`, empty) or a falsy reason gets MissingField; otherwise a
quantity that does not read as a Number (`ToNumber` gives `NaN`) or reads as
one that is `<= 0` gets InvalidQuantity (status 400, message
`จำนวนต้องเป็นตัวเลขและมากกว่า 0`).  In both cases the store is unchanged and
the only storage call is the read. -/
theorem invalid_quantity_after_presence (env : Env) (st : Store) (id : String)
    (body : WithdrawBody) (user : String) (item : StockItem)
    (hid : matchesObjectId id = true)
    (hfindOk : env.findOk = true)
    (hfind : st.stocks.find? (fun s => s._id == id) = some item) :
    ((truthy body.quantity = false ∨ truthy body.reason = false) →
      withdrawTransactional env st id body user =
        ⟨missingField body.quantity body.reason, st, [.findStock id]⟩ ∧
      withdrawCompensating env st id body user =
        ⟨missingField body.quantity body.reason, st, [.findStock id]⟩) ∧
    (truthy body.quantity = true → truthy body.reason = true →
      (toNumber body.quantity = .nan ∨ toNumber body.quantity = .negInf ∨
        ∃ n, toNumber body.quantity = .fin n ∧ n ≤ 0) →
      withdrawTransactional env st id body user =
        ⟨⟨400, .message "จำนวนต้องเป็นตัวเลขและมากกว่า 0"⟩, st, [.findStock id]⟩ ∧
      withdrawCompensating env st id body user =
        ⟨⟨400, .message "จำนวนต้องเป็นตัวเลขและมากกว่า 0"⟩, st, [.findStock id]⟩) := by
  constructor
  · intro h
    have c1 : (!truthy body.quantity || !truthy body.reason) = true := by
      rcases h with h | h <;> simp [h]
    constructor
    · simp only [withdrawTransactional, hid, hfindOk, findById_eq hfind, c1]
      simp
    · simp only [withdrawCompensating, hid, hfindOk, findById_eq hfind, c1]
      simp
  · intro htq hr h
    have c2 : (isNaN body.quantity || jsLe body.quantity 0) = true := by
      rcases h with h | h | ⟨n, h, hn⟩
      · simp [isNaN, h]
      · simp [jsLe, h]
      · simp [jsLe, h, hn]
    constructor
    · simp only [withdrawTransactional, hid, hfindOk, findById_eq hfind, htq, hr, c2]
      simp [invalidQuantity]
    · simp only [withdrawCompensating, hid, hfindOk, findById_eq hfind, htq, hr, c2]
      simp [invalidQuantity]

/-- Witness of C4, amended: the quantity `-5` with the reason `sale`. -/
theorem invalid_quantity_after_presence_witness :
    withdrawTransactional allOk sampleStore sampleItem._id ⟨.num (.fin (-5)), .str "sale"⟩ sampleUser =
      ⟨⟨400, .message "จำนวนต้องเป็นตัวเลขและมากกว่า 0"⟩, sampleStore,
        [.findStock sampleItem._id]⟩ ∧
    withdrawCompensating allOk sampleStore sampleItem._id ⟨.num (.fin (-5)), .str "sale"⟩ sampleUser =
      ⟨⟨400, .message "จำนวนต้องเป็นตัวเลขและมากกว่า 0"⟩, sampleStore,
        [.findStock sampleItem._id]⟩ :=
  (invalid_quantity_after_presence allOk sampleStore sampleItem._id ⟨.num (.fin (-5)), .str "sale"⟩
    sampleUser sampleItem (by decide) (by decide) (by decide)).2 (by decide) (by decide)
    (Or.inr (Or.inr ⟨-5, rfl, by norm_num⟩))

/-- C5: an id that is not exactly 24 hexadecimal characters is answered by
either handler with status 400 and the message `รหัสสินค้าไม่ถูกต้อง`, whatever the
body, the store and the environment; no storage call is issued and the store
is unchanged. -/
theorem withdraw_invalid_identifier (env : Env) (st : Store) (id : String)
    (body : WithdrawBody) (user : String)
    (h : ¬ (id.length = 24 ∧ ∀ c ∈ id.data, isHexChar c = true)) :
    withdrawTransactional env st id body user =
      ⟨⟨400, .message "รหัสสินค้าไม่ถูกต้อง"⟩, st, []⟩ ∧
    withdrawCompensating env st id body user =
      ⟨⟨400, .message "รหัสสินค้าไม่ถูกต้อง"⟩, st, []⟩ := by
  have hm : matchesObjectId id = false := by
    cases hmo : matchesObjectId id with
    | false => rfl
    | true =>
      exfalso
      apply h
      simp only [matchesObjectId, Bool.and_eq_true, beq_iff_eq, List.all_eq_true] at hmo
      exact ⟨hmo.1, hmo.2⟩
  constructor
  · simp [withdrawTransactional, hm, invalidIdentifier]
  · simp [withdrawCompensating, hm, invalidIdentifier]

/-- Witness of C5: the id `abc`, with a store read that would fail. -/
theorem withdraw_invalid_identifier_witness :
    withdrawTransactional { allOk with findOk := false } sampleStore "abc"
        ⟨.num (.fin 5), .str "sale"⟩ sampleUser =
      ⟨⟨400, .message "รหัสสินค้าไม่ถูกต้อง"⟩, sampleStore, []⟩ ∧
    withdrawCompensating { allOk with findOk := false } sampleStore "abc"
        ⟨.num (.fin 5), .str "sale"⟩ sampleUser =
      ⟨⟨400, .message "รหัสสินค้าไม่ถูกต้อง"⟩, sampleStore, []⟩ :=
  withdraw_invalid_identifier { allOk with findOk := false } sampleStore "abc"
    ⟨.num (.fin 5), .str "sale"⟩ sampleUser (by decide)

/-- C6: in the transactional handler, for a request that passes every check,
a failure of the stock save, of the history save or of the commit ends in
`abortTransaction`: the store after the call is the store before it and the
response is the 500 failure body, not the stock item.  Whatever the
environment, the store is either untouched or holds both the decrement and
its history record. -/
theorem transactional_failure_aborts (env : Env) (st : Store) (id : String)
    (body : WithdrawBody) (user : String) (item : StockItem) (n : ℚ)
    (hid : matchesObjectId id = true)
    (hfind : st.stocks.find? (fun s => s._id == id) = some item)
    (hq : toNumber body.quantity = .fin n) (hpos : 0 < n)
    (hr : truthy body.reason = true)
    (hsuff : n ≤ item.quantity) :
    (env.findOk = true → env.sessionOk = true →
      (env.stockSaveOk = false ∨ env.historySaveOk = false ∨ env.commitOk = false) →
      (withdrawTransactional env st id body user).response =
        ⟨500, .message "เกิดข้อผิดพลาดในการเบิกสินค้า"⟩ ∧
      (withdrawTransactional env st id body user).store = st ∧
      (withdrawTransactional env st id body user).trace.getLast? = some .abortTransaction) ∧
    ((withdrawTransactional env st id body user).store = st ∨
      Withdrawn st item n body.reason user (withdrawTransactional env st id body user)) := by
  obtain ⟨hitem, pre, post, hsplit, hpre⟩ := find_split hfind
  obtain ⟨r, hrs⟩ := castString_of_truthy hr
  have hpre2 : ∀ t ∈ pre, (t._id == item._id) = false := by simpa [hitem] using hpre
  constructor
  · intro hfindOk hsession hfail
    rw [transactional_eval env st id body user item n r pre post hid hfind hsplit hpre hq hpos hr
      hrs hsuff hfindOk hsession]
    rcases hfail with h | h | h
    · simp [h, withdrawFailure]
    · cases hs : env.stockSaveOk <;> simp [h, withdrawFailure]
    · cases hs : env.stockSaveOk <;> cases hh : (env.historySaveOk && matchesObjectId user) <;>
        simp [h, withdrawFailure]
  · cases hfindOk : env.findOk with
    | false => left; simp [withdrawTransactional, hid, hfindOk]
    | true =>
      obtain ⟨c1, c2, c3⟩ := checks_pass hq hpos hr hsuff
      cases hsession : env.sessionOk with
      | false =>
        left
        simp [withdrawTransactional, hid, hfindOk, findById_eq hfind, c1, c2, c3, hsession]
      | true =>
        cases hs : env.stockSaveOk with
        | false =>
          left
          rw [transactional_eval env st id body user item n r pre post hid hfind hsplit hpre hq
            hpos hr hrs hsuff hfindOk hsession]
          simp [hs]
        | true =>
          cases hh : (env.historySaveOk && matchesObjectId user) with
          | false =>
            left
            rw [transactional_eval env st id body user item n r pre post hid hfind hsplit hpre hq
              hpos hr hrs hsuff hfindOk hsession]
            simp only [hs, if_true, hh, Bool.false_eq_true, if_false]
          | true =>
            cases hc : env.commitOk with
            | false =>
              left
              rw [transactional_eval env st id body user item n r pre post hid hfind hsplit hpre
                hq hpos hr hrs hsuff hfindOk hsession]
              simp only [hs, if_true, hh, hc, Bool.false_eq_true, if_false]
            | true =>
              right
              rw [Bool.and_eq_true] at hh
              exact withdrawn_of_eq
                (transactional_success_eq env st id body user item n r pre post hid hfind hsplit
                  hpre hq hpos hr hrs hsuff hh.2 hfindOk hsession hs hh.1 hc)
                hsplit hpre2 rfl rfl rfl hr hrs

/-- Witness of C6: the history save fails while five units of the sample item
are being withdrawn. -/
theorem transactional_failure_aborts_witness :
    (withdrawTransactional { allOk with historySaveOk := false } sampleStore sampleItem._id
        ⟨.num (.fin 5), .str "sale"⟩ sampleUser).response =
      ⟨500, .message "เกิดข้อผิดพลาดในการเบิกสินค้า"⟩ ∧
    (withdrawTransactional { allOk with historySaveOk := false } sampleStore sampleItem._id
        ⟨.num (.fin 5), .str "sale"⟩ sampleUser).store = sampleStore ∧
    (withdrawTransactional { allOk with historySaveOk := false } sampleStore sampleItem._id
        ⟨.num (.fin 5), .str "sale"⟩ sampleUser).trace.getLast? = some .abortTransaction :=
  (transactional_failure_aborts { allOk with historySaveOk := false } sampleStore sampleItem._id
    ⟨.num (.fin 5), .str "sale"⟩ sampleUser sampleItem 5 (by decide) (by decide) rfl
    (by norm_num) (by decide) (by norm_num [sampleItem])).1 (by decide) (by decide)
    (Or.inr (Or.inl (by decide)))

/-- C7 fails on the code: the sample item holds 10 units, the quantity `"5"`
(a string that reads as the number 5) passes every check, the stock save
succeeds, the history save fails and the compensating save succeeds; the
item is left with 55 units, not 10, because `stock.quantity += quantity`
concatenates `5` and `"5"`.  The response is the 500 failure body and no
history record is added. -/
theorem compensation_concatenates_string_quantity :
    toNumber (.str "5") = .fin 5 ∧
    withdrawCompensating { allOk with historySaveOk := false } sampleStore sampleItem._id
        ⟨.str "5", .str "sale"⟩ sampleUser =
      ⟨⟨500, .message "เกิดข้อผิดพลาดในการเบิกสินค้า"⟩,
       ⟨[otherItem, (sampleItem.withQuantity 55).withUpdatedAt 102], [], []⟩,
       [.findStock sampleItem._id, .saveStock sampleItem._id 5, .saveHistory sampleItem._id,
        .saveStock sampleItem._id 55]⟩ ∧
    sampleItem.quantity = 10 := by
  refine ⟨five_reads_five, ?_, rfl⟩
  rw [compensating_eval { allOk with historySaveOk := false } sampleStore sampleItem._id
    ⟨.str "5", .str "sale"⟩ sampleUser sampleItem 5 "sale" [otherItem] [] sample_id_matches
    sample_find rfl sample_pre five_reads_five (by norm_num) (by decide) (by decide)
    (by norm_num [sampleItem]) rfl]
  have hq : sampleItem.quantity - 5 = 5 := by norm_num [sampleItem]
  have hsave := save_eq ((sampleItem.withQuantity 5).withUpdatedAt 100 |>.withQuantity 55)
    ((sampleItem.withQuantity 5).withUpdatedAt 100) 102 [otherItem] []
    (by norm_num) rfl sample_pre
  simp only [List.singleton_append] at hsave
  simp only [allOk, if_true, Bool.false_and, Bool.false_eq_true, if_false, revertWithdraw,
    StockDoc.setQuantity, withUpdatedAt_quantity, withQuantity_quantity, hq, five_plus_five,
    cast_fifty_five, List.singleton_append, hsave, withUpdatedAt_id, withQuantity_id]
  rfl

/-- C10: when every storage call succeeds (the acting user's id being one the
history record accepts), the two handlers answer any request with the same
response and leave the same store. -/
theorem withdraw_variants_agree (env : Env) (st : Store) (id : String) (body : WithdrawBody)
    (user : String) (huser : matchesObjectId user = true)
    (hfindOk : env.findOk = true) (hsession : env.sessionOk = true)
    (hstock : env.stockSaveOk = true) (hhist : env.historySaveOk = true)
    (hcommit : env.commitOk = true) :
    (withdrawTransactional env st id body user).response =
      (withdrawCompensating env st id body user).response ∧
    (withdrawTransactional env st id body user).store =
      (withdrawCompensating env st id body user).store := by
  by_cases hid : matchesObjectId id = true
  · cases hf : st.stocks.find? (fun s => s._id == id) with
    | none =>
      simp [withdrawTransactional, withdrawCompensating, hid, hfindOk, Stock.findById, hf]
    | some item =>
      by_cases c1 : (!truthy body.quantity || !truthy body.reason) = true
      · simp [withdrawTransactional, withdrawCompensating, hid, hfindOk, findById_eq hf, c1]
      · by_cases c2 : (isNaN body.quantity || jsLe body.quantity 0) = true
        · simp [withdrawTransactional, withdrawCompensating, hid, hfindOk, findById_eq hf, c1, c2]
        · by_cases c3 : jsLt item.quantity body.quantity = true
          · simp [withdrawTransactional, withdrawCompensating, hid, hfindOk, findById_eq hf, c1,
              c2, c3]
          · have hr : truthy body.reason = true := by
              cases h : truthy body.reason <;> simp_all
            cases hq : toNumber body.quantity with
            | nan => simp [isNaN, hq] at c2
            | negInf => simp [isNaN, jsLe, hq] at c2
            | posInf => simp [jsLt, hq] at c3
            | fin n =>
              have hpos : 0 < n := by
                simp [isNaN, jsLe, hq] at c2
                exact c2
              have hsuff : n ≤ item.quantity := by
                simp [jsLt, hq] at c3
                exact c3
              obtain ⟨-, pre, post, hsplit, hpre⟩ := find_split hf
              obtain ⟨r, hrs⟩ := castString_of_truthy hr
              rw [transactional_success_eq env st id body user item n r pre post hid hf hsplit
                  hpre hq hpos hr hrs hsuff huser hfindOk hsession hstock hhist hcommit,
                compensating_success_eq env st id body user item n r pre post hid hf hsplit hpre
                  hq hpos hr hrs hsuff huser hfindOk hstock hhist]
              exact ⟨rfl, rfl⟩
  · simp [withdrawTransactional, withdrawCompensating, hid]

/-- Witness of C10: five units of the sample item, asked for with the string
`"5"`, under an environment without failures. -/
theorem withdraw_variants_agree_witness :
    (withdrawTransactional allOk sampleStore sampleItem._id ⟨.str "5", .str "sale"⟩
        sampleUser).response =
      (withdrawCompensating allOk sampleStore sampleItem._id ⟨.str "5", .str "sale"⟩
        sampleUser).response ∧
    (withdrawTransactional allOk sampleStore sampleItem._id ⟨.str "5", .str "sale"⟩
        sampleUser).store =
      (withdrawCompensating allOk sampleStore sampleItem._id ⟨.str "5", .str "sale"⟩
        sampleUser).store :=
  withdraw_variants_agree allOk sampleStore sampleItem._id ⟨.str "5", .str "sale"⟩ sampleUser
    (by decide) (by decide) (by decide) (by decide) (by decide) (by decide)

/-! ## The history listings -/

theorem listing_rows (st : Store) (f : HistoryEntry → HistoryView) (hf : ∀ h, (f h).entry = h) :
    (((StockHistory.findSorted st.history).map f).map (fun v => v.entry)).Perm st.history ∧
    List.Pairwise (fun a b => b.entry.createdAt ≤ a.entry.createdAt)
      ((StockHistory.findSorted st.history).map f) := by
  have hmap : ((StockHistory.findSorted st.history).map f).map (fun v => v.entry) =
      StockHistory.findSorted st.history := by
    rw [List.map_map]
    conv_rhs => rw [← List.map_id (StockHistory.findSorted st.history)]
    apply List.map_congr_left
    intro h _
    simp [hf]
  constructor
  · rw [hmap]
    exact List.perm_insertionSort newestFirst st.history
  · have hs : List.Pairwise newestFirst (StockHistory.findSorted st.history) :=
      List.sorted_insertionSort newestFirst st.history
    rw [List.pairwise_map]
    exact hs.imp (fun {a b} hab => by simpa [hf, newestFirst] using hab)

/-- C8: when the query succeeds, each of the three history listings answers
with status 200 and one row per stored history record (the rows' records are
a permutation of the log), ordered by `createdAt` non-increasing, and leaves
the store as it was (as it does when the query fails); on an empty log the
answer is the empty list with status 200.  The listing of `src/src/routes/stock.js` at `/history` is reached by
an authenticated request (`req.userId` set). -/
theorem listHistory_sorted_complete (st : Store) (userId : JsVal)
    (hauth : truthy userId = true) :
    (∃ rows, getHistoryTransactional none st = ⟨⟨200, .history rows⟩, st, [.findHistory]⟩ ∧
      (rows.map (fun v => v.entry)).Perm st.history ∧
      List.Pairwise (fun a b => b.entry.createdAt ≤ a.entry.createdAt) rows) ∧
    (∃ rows, getHistory none st userId = ⟨⟨200, .history rows⟩, st, [.findHistory]⟩ ∧
      (rows.map (fun v => v.entry)).Perm st.history ∧
      List.Pairwise (fun a b => b.entry.createdAt ≤ a.entry.createdAt) rows) ∧
    (∃ rows, getHistoryAll none st = ⟨⟨200, .history rows⟩, st, [.findHistory]⟩ ∧
      (rows.map (fun v => v.entry)).Perm st.history ∧
      List.Pairwise (fun a b => b.entry.createdAt ≤ a.entry.createdAt) rows) ∧
    (∀ stocks users,
      getHistoryTransactional none ⟨stocks, [], users⟩ =
        ⟨⟨200, .history []⟩, ⟨stocks, [], users⟩, [.findHistory]⟩ ∧
      getHistory none ⟨stocks, [], users⟩ userId =
        ⟨⟨200, .history []⟩, ⟨stocks, [], users⟩, [.findHistory]⟩ ∧
      getHistoryAll none ⟨stocks, [], users⟩ =
        ⟨⟨200, .history []⟩, ⟨stocks, [], users⟩, [.findHistory]⟩) ∧
    (∀ (err : Option QueryError) (uid : JsVal),
      (getHistoryTransactional err st).store = st ∧ (getHistory err st uid).store = st ∧
      (getHistoryAll err st).store = st) := by
  refine ⟨⟨_, rfl, listing_rows st (populate st none (some ["name"])) (fun _ => rfl)⟩,
    ⟨_, ?_, listing_rows st
      (populate st (some ["sku", "category", "quantity", "unit", "price", "image"])
        (some ["username", "name", "email"])) (fun _ => rfl)⟩,
    ⟨_, rfl, listing_rows st (populate st (some ["sku", "category"]) (some ["username"]))
      (fun _ => rfl)⟩, ?_, ?_⟩
  · simp [getHistory, hauth]
  · intro stocks users
    refine ⟨rfl, ?_, rfl⟩
    simp [getHistory, hauth, StockHistory.findSorted]
  · intro err uid
    refine ⟨?_, ?_, ?_⟩
    · unfold getHistoryTransactional
      split <;> rfl
    · unfold getHistory
      repeat' split
      all_goals rfl
    · unfold getHistoryAll
      split <;> rfl

/-- Witness of C8: the three listings on a log of three records created at
times 30, 90 and 50. -/
theorem listHistory_sorted_complete_witness :
    truthy (.str sampleUser) = true ∧
    (getHistoryTransactional none loggedStore).store = loggedStore ∧
    (∃ rows, getHistory none loggedStore (.str sampleUser) =
        ⟨⟨200, .history rows⟩, loggedStore, [.findHistory]⟩ ∧
      (rows.map (fun v => v.entry)).Perm loggedStore.history ∧
      List.Pairwise (fun a b => b.entry.createdAt ≤ a.entry.createdAt) rows) :=
  ⟨by decide, by decide,
    (listHistory_sorted_complete loggedStore (.str sampleUser) (by decide)).2.1⟩

/-! ## The step model agrees with the handlers -/

theorem runAlone_succ (c : Call) (k : Nat) (ph : Phase) (st : Store) :
    runAlone c (k + 1) (ph, st) = runAlone c k (stepCall c ph st) := rfl

theorem stepCall_finished (c : Call) (r : Response) (st : Store) :
    stepCall c (.finished r) st = (.finished r, st) := by
  unfold stepCall
  split <;> rfl

theorem runAlone_finished (c : Call) (k : Nat) (r : Response) (st : Store) :
    runAlone c k (.finished r, st) = (.finished r, st) := by
  induction k with
  | zero => rfl
  | succ k ih => rw [runAlone_succ, stepCall_finished, ih]

theorem stepCall_compensating {c : Call} (hv : c.variant = .compensating) (ph : Phase)
    (st : Store) : stepCall c ph st = stepCompensating c ph st := by
  simp [stepCall, hv]

theorem stepCall_transactional {c : Call} (hv : c.variant = .transactional) (ph : Phase)
    (st : Store) : stepCall c ph st = stepTransactional c ph st := by
  simp [stepCall, hv]

theorem runAlone_reverting {c : Call} (hv : c.variant = .compensating) (k : Nat) (st : Store)
    (stock : StockDoc) (tr : List Op) :
    runAlone c (k + 1) (.reverting stock, st) =
      (.finished (revertWithdraw c.env st stock c.body.quantity tr).response,
       (revertWithdraw c.env st stock c.body.quantity tr).store) := by
  rw [runAlone_succ, stepCall_compensating hv]
  simp only [stepCompensating, revertWithdraw]
  split <;> simp [runAlone_finished]

theorem runAlone_compensating (c : Call) (hv : c.variant = .compensating) (st : Store) :
    runAlone c 5 (.start, st) =
      (.finished (withdrawCompensating c.env st c.id c.body c.user).response,
       (withdrawCompensating c.env st c.id c.body c.user).store) := by
  rw [runAlone_succ, stepCall_compensating hv]
  simp only [stepCompensating, stepRead, withdrawCompensating]
  by_cases hid : matchesObjectId c.id = true
  · by_cases hf : c.env.findOk = true
    · simp only [hid, hf, Bool.not_true, Bool.false_eq_true, if_false]
      rw [runAlone_succ, stepCall_compensating hv]
      simp only [stepCompensating]
      cases hfind : Stock.findById st.stocks c.id with
      | none => simp [stepCheck, runAlone_finished]
      | some stock =>
        simp only [stepCheck]
        by_cases c1 : (!truthy c.body.quantity || !truthy c.body.reason) = true
        · simp [c1, runAlone_finished]
        · by_cases c2 : (isNaN c.body.quantity || jsLe c.body.quantity 0) = true
          · simp [c1, c2, runAlone_finished]
          · by_cases c3 : jsLt stock.fields.quantity c.body.quantity = true
            · simp [c1, c2, c3, runAlone_finished]
            · simp only [c1, c2, c3, Bool.false_eq_true, if_false]
              rw [runAlone_succ, stepCall_compensating hv]
              simp only [stepCompensating]
              cases hs : (stock.setQuantity (.num (jsSub stock.fields.quantity c.body.quantity))).save
                  c.env.stockSaveOk c.env.tStock st.stocks with
              | none =>
                simp only
                rw [runAlone_reverting hv]
              | some p =>
                obtain ⟨stock2, stocks2⟩ := p
                simp only
                rw [runAlone_succ, stepCall_compensating hv]
                simp only [stepCompensating]
                cases hh : StockHistory.save stock2.fields._id c.body.quantity c.body.reason c.user
                    c.env.historySaveOk c.env.tHistory st.history with
                | none =>
                  simp only
                  rw [runAlone_reverting hv]
                | some p2 => simp [runAlone_finished]
    · simp [hid, hf, runAlone_finished]
  · simp [hid, runAlone_finished]

theorem runAlone_transactional (c : Call) (hv : c.variant = .transactional) (st : Store) :
    runAlone c 5 (.start, st) =
      (.finished (withdrawTransactional c.env st c.id c.body c.user).response,
       (withdrawTransactional c.env st c.id c.body c.user).store) := by
  rw [runAlone_succ, stepCall_transactional hv]
  simp only [stepTransactional, stepRead, withdrawTransactional, StockDoc.saveInSession]
  by_cases hid : matchesObjectId c.id = true
  · by_cases hf : c.env.findOk = true
    · simp only [hid, hf, Bool.not_true, Bool.false_eq_true, if_false]
      rw [runAlone_succ, stepCall_transactional hv]
      simp only [stepTransactional]
      cases hfind : Stock.findById st.stocks c.id with
      | none => simp [stepCheck, runAlone_finished]
      | some stock =>
        simp only [stepCheck]
        by_cases c1 : (!truthy c.body.quantity || !truthy c.body.reason) = true
        · simp [c1, runAlone_finished]
        · by_cases c2 : (isNaN c.body.quantity || jsLe c.body.quantity 0) = true
          · simp [c1, c2, runAlone_finished]
          · by_cases c3 : jsLt stock.fields.quantity c.body.quantity = true
            · simp [c1, c2, c3, runAlone_finished]
            · simp only [c1, c2, c3, Bool.false_eq_true, if_false]
              rw [runAlone_succ, stepCall_transactional hv]
              simp only [stepTransactional, stepTransaction, abortWithdraw,
                StockDoc.saveInSession]
              by_cases hse : c.env.sessionOk = true
              · simp only [hse, Bool.not_true, Bool.false_eq_true, if_false]
                cases hs : (stock.setQuantity (.num (jsSub stock.fields.quantity c.body.quantity))).save
                    c.env.stockSaveOk c.env.tStock st.stocks with
                | none => simp [runAlone_finished]
                | some p =>
                  obtain ⟨stock2, stocks2⟩ := p
                  simp only
                  cases hh : StockHistory.save stock2.fields._id c.body.quantity c.body.reason
                      c.user c.env.historySaveOk c.env.tHistory st.history with
                  | none => simp [runAlone_finished]
                  | some p2 =>
                    by_cases hc : c.env.commitOk = true
                    · simp [hc, runAlone_finished]
                    · simp [hc, runAlone_finished]
              · simp [hse, runAlone_finished]
    · simp [hid, hf, runAlone_finished]
  · simp [hid, runAlone_finished]

theorem runAlone_add (c : Call) (k m : Nat) (r : Phase × Store) :
    runAlone c (k + m) r = runAlone c m (runAlone c k r) := by
  induction k generalizing r with
  | zero => simp [runAlone]
  | succ k ih =>
    have : k + 1 + m = (k + m) + 1 := by omega
    rw [this]
    simp only [runAlone]
    exact ih _

theorem runAlone_withdraw (c : Call) (k : Nat) (hk : 5 ≤ k) (st : Store) :
    runAlone c k (.start, st) = (.finished (withdraw c st).response, (withdraw c st).store) := by
  obtain ⟨m, rfl⟩ : ∃ m, k = 5 + m := ⟨k - 5, by omega⟩
  rw [runAlone_add]
  cases hv : c.variant with
  | transactional =>
    rw [runAlone_transactional c hv, runAlone_finished]
    simp [withdraw, hv]
  | compensating =>
    rw [runAlone_compensating c hv, runAlone_finished]
    simp [withdraw, hv]

theorem interleave_false (a b : Call) (s : List Bool) (r : Race) :
    interleave a b (false :: s) r =
      interleave a b s
        ⟨(stepCall a r.first r.store).1, r.second, (stepCall a r.first r.store).2⟩ := rfl

theorem interleave_true (a b : Call) (s : List Bool) (r : Race) :
    interleave a b (true :: s) r =
      interleave a b s
        ⟨r.first, (stepCall b r.second r.store).1, (stepCall b r.second r.store).2⟩ := rfl

theorem interleave_first (a b : Call) (k : Nat) (s : List Bool) (r : Race) :
    interleave a b (List.replicate k false ++ s) r =
      interleave a b s
        ⟨(runAlone a k (r.first, r.store)).1, r.second, (runAlone a k (r.first, r.store)).2⟩ := by
  induction k generalizing r with
  | zero => simp [runAlone]
  | succ k ih =>
    rw [List.replicate_succ, List.cons_append, interleave_false, ih]
    rfl

theorem interleave_second (a b : Call) (k : Nat) (s : List Bool) (r : Race) :
    interleave a b (List.replicate k true ++ s) r =
      interleave a b s
        ⟨r.first, (runAlone b k (r.second, r.store)).1, (runAlone b k (r.second, r.store)).2⟩ := by
  induction k generalizing r with
  | zero => simp [runAlone]
  | succ k ih =>
    rw [List.replicate_succ, List.cons_append, interleave_true, ih]
    rfl

theorem interleave_serial (a b : Call) (k m : Nat) (hk : 5 ≤ k) (hm : 5 ≤ m) (st : Store) :
    interleave a b (List.replicate k false ++ List.replicate m true) ⟨.start, .start, st⟩ =
      ⟨.finished (withdraw a st).response,
       .finished (withdraw b (withdraw a st).store).response,
       (withdraw b (withdraw a st).store).store⟩ := by
  rw [interleave_first]
  simp only [runAlone_withdraw a k hk]
  have h := interleave_second a b m [] ⟨.finished (withdraw a st).response, .start,
    (withdraw a st).store⟩
  simp only [List.append_nil] at h
  rw [h]
  simp only [runAlone_withdraw b m hm, interleave]

/-! ## Steps preserve non-negativity -/

theorem stepCall_nonneg (c : Call) (ph : Phase) (st : Store) (h : st.nonneg) :
    (stepCall c ph st).2.nonneg := by
  unfold stepCall
  split
  · unfold stepTransactional
    split
    any_goals exact h
    unfold stepTransaction StockDoc.saveInSession
    repeat' split
    all_goals first
      | exact h
      | (rename_i hsave _ _ _ _ _
         exact save_nonneg hsave h)
  · unfold stepCompensating
    split
    any_goals exact h
    · split
      · exact h
      · rename_i hsave
        exact save_nonneg hsave h
    · split
      · exact h
      · exact h
    · simp only
      split
      · exact h
      · rename_i hsave
        exact save_nonneg hsave h

theorem interleave_nonneg (a b : Call) (sched : List Bool) (r : Race) (h : r.store.nonneg) :
    (interleave a b sched r).store.nonneg := by
  induction sched generalizing r with
  | nil => exact h
  | cons x xs ih =>
    cases x with
    | false => exact ih _ (stepCall_nonneg a r.first r.store h)
    | true => exact ih _ (stepCall_nonneg b r.second r.store h)

/-! ## Steps of a valid request -/

theorem step_read {id : String} {q n : ℚ} {c : Call} (V : ValidRequest id q n c) (st : Store) :
    stepCall c .start st = (.loaded (Stock.findById st.stocks id), st) := by
  unfold stepCall
  split <;> simp [stepTransactional, stepCompensating, stepRead, V.id_eq, V.id_ok, V.findOk]

theorem step_check {id : String} {q n : ℚ} {c : Call} (V : ValidRequest id q n c)
    (it : StockItem) (st : Store) :
    stepCall c (.loaded (some ⟨it, false⟩)) st =
      (if it.quantity < n then .finished (insufficientStock it.quantity c.body.quantity)
       else .saving ⟨it.withQuantity (it.quantity - n), false⟩, st) := by
  have htq : truthy c.body.quantity = true := truthy_of_toNumber V.reads (ne_of_gt V.pos)
  have h1 : ¬ n ≤ 0 := not_le.mpr V.pos
  unfold stepCall
  split <;>
    simp [stepTransactional, stepCompensating, stepCheck, htq, V.reason, isNaN, V.reads, jsLe,
      jsLt, h1, setQuantity_sub it _ n V.reads]

theorem step_save {id : String} {q n : ℚ} {c : Call} (V : ValidRequest id q n c)
    (hv : c.variant = .compensating) (it cur : StockItem) (pre post : List StockItem)
    (hist : List HistoryEntry) (users : List User)
    (hit : it._id = id) (hcur : cur._id = id) (hq : 0 ≤ it.quantity)
    (hpre : ∀ t ∈ pre, (t._id == id) = false) :
    stepCall c (.saving ⟨it, false⟩) ⟨pre ++ cur :: post, hist, users⟩ =
      (.recording ⟨it.withUpdatedAt c.env.tStock, false⟩,
       ⟨pre ++ it.withUpdatedAt c.env.tStock :: post, hist, users⟩) := by
  have hsave := save_eq it cur c.env.tStock pre post hq (by rw [hcur, hit])
    (by simpa [hit] using hpre)
  simp [stepCall, hv, stepCompensating, V.stockSaveOk, hsave]

theorem step_record {id : String} {q n : ℚ} {c : Call} (V : ValidRequest id q n c)
    (hv : c.variant = .compensating) (it : StockItem) (r : String)
    (hr : castString c.body.reason = some r) (st : Store) :
    stepCall c (.recording ⟨it, false⟩) st =
      (.finished ⟨200, .stock it⟩,
       { st with history := st.history ++
          [⟨it._id, n, r, .withdraw, c.user, c.env.tHistory, c.env.tHistory⟩] }) := by
  have htq : truthy c.body.quantity = true := truthy_of_toNumber V.reads (ne_of_gt V.pos)
  have hcn : castNumber c.body.quantity = some n := castNumber_of_truthy htq V.reads
  simp [stepCall, hv, stepCompensating, history_save_eq _ _ _ _ _ _ _ n r hcn hr,
    V.historySaveOk, V.user]

theorem step_transaction {id : String} {q n : ℚ} {c : Call} (V : ValidRequest id q n c)
    (hv : c.variant = .transactional) (it cur : StockItem) (pre post : List StockItem)
    (hist : List HistoryEntry) (users : List User) (r : String)
    (hr : castString c.body.reason = some r)
    (hit : it._id = id) (hcur : cur._id = id) (hq : 0 ≤ it.quantity)
    (hpre : ∀ t ∈ pre, (t._id == id) = false) :
    stepCall c (.saving ⟨it, false⟩) ⟨pre ++ cur :: post, hist, users⟩ =
      (.finished ⟨200, .stock (it.withUpdatedAt c.env.tStock)⟩,
       ⟨pre ++ it.withUpdatedAt c.env.tStock :: post,
        hist ++ [⟨it._id, n, r, .withdraw, c.user, c.env.tHistory, c.env.tHistory⟩], users⟩) := by
  have htq : truthy c.body.quantity = true := truthy_of_toNumber V.reads (ne_of_gt V.pos)
  have hcn : castNumber c.body.quantity = some n := castNumber_of_truthy htq V.reads
  have hsave := save_eq it cur c.env.tStock pre post hq (by rw [hcur, hit])
    (by simpa [hit] using hpre)
  simp [stepCall, hv, stepTransactional, stepTransaction, StockDoc.saveInSession, V.sessionOk,
    V.stockSaveOk, hsave, history_save_eq _ _ _ _ _ _ _ n r hcn hr, V.historySaveOk, V.user,
    V.commitOk]

/-! ## The invariant of two requests in flight -/

theorem phaseOk_saved {id : String} {q n m : ℚ} {c : Call} {s : Bool} {ph : Phase}
    (h : PhaseOk id q n m c s ph) : PhaseOk id q n m c true ph := by
  cases ph with
  | start => trivial
  | loaded d =>
    obtain ⟨it, h1, h2, h3⟩ := h
    exact ⟨it, h1, h2, h3.imp (fun h4 => h4) (fun h4 => ⟨h4.1, rfl⟩)⟩
  | saving d => exact h
  | recording d => exact h
  | reverting d => exact h
  | finished r => exact h.imp (fun h4 => h4) (fun h4 => ⟨h4.1, rfl⟩)

theorem raceInvariant_symm {id : String} {pre post : List StockItem} {users : List User}
    {q n m : ℚ} {x y : Call} {phX phY : Phase} {store : Store}
    (h : RaceInvariant id pre post users q n m x y phX phY store) :
    RaceInvariant id pre post users q m n y x phY phX store := by
  obtain ⟨cur, hist, h1, h2, h3, h4, h5⟩ := h
  refine ⟨cur, hist, h1, h2, ?_, h5, h4⟩
  rcases h3 with h3 | h3 | h3
  · exact Or.inl ⟨h3.1, h3.2.2, h3.2.1⟩
  · exact Or.inr (Or.inr h3)
  · exact Or.inr (Or.inl h3)

theorem find_current {id : String} {pre post : List StockItem} (cur : StockItem)
    (hcur : cur._id = id) (hpre : ∀ t ∈ pre, (t._id == id) = false) :
    Stock.findById (pre ++ cur :: post) id = some ⟨cur, false⟩ :=
  findById_eq (find_updated cur hpre hcur)

theorem race_step {id : String} {pre post : List StockItem} {users : List User}
    {q n m : ℚ} {x y : Call} (V : ValidRequest id q n x) (hsum : q < n + m)
    (hpre : ∀ t ∈ pre, (t._id == id) = false)
    {phX phY : Phase} {store : Store}
    (h : RaceInvariant id pre post users q n m x y phX phY store) :
    RaceInvariant id pre post users q n m x y (stepCall x phX store).1 phY
      (stepCall x phX store).2 := by
  obtain ⟨cur, hist, rfl, hcur, hQ, hX, hY⟩ := h
  cases phX with
  | start =>
    rw [step_read V, find_current cur hcur hpre]
    refine ⟨cur, hist, rfl, hcur, hQ, ?_, hY⟩
    refine ⟨cur, rfl, hcur, ?_⟩
    rcases hQ with hQ | hQ | hQ
    · exact Or.inl hQ.1
    · simp [Phase.hasSaved] at hQ
    · exact Or.inr hQ
  | loaded d =>
    obtain ⟨it, rfl, hit, hq⟩ := hX
    rw [step_check V]
    rcases hq with hq | ⟨hq, hs⟩
    · have hlt : ¬ it.quantity < n := by rw [hq]; exact not_lt.mpr V.le
      simp only [hlt, if_false]
      exact ⟨cur, hist, rfl, hcur, hQ, ⟨_, rfl, hit, by simp [hq]⟩, hY⟩
    · have hlt : it.quantity < n := by rw [hq]; linarith
      simp only [hlt, if_true]
      refine ⟨cur, hist, rfl, hcur, ?_, Or.inr ⟨by rw [hq], hs⟩, hY⟩
      simpa [Phase.hasSaved, insufficientStock] using hQ
  | saving d =>
    obtain ⟨it, rfl, hit, hq⟩ := hX
    have h0 : 0 ≤ it.quantity := by rw [hq]; linarith [V.le]
    obtain ⟨r, hr⟩ := castString_of_truthy V.reason
    cases hv : x.variant with
    | transactional =>
      rw [step_transaction V hv it cur pre post hist users r hr hit hcur h0 hpre]
      exact ⟨_, _, rfl, hit, Or.inr (Or.inl ⟨hq, rfl⟩), Or.inl ⟨_, rfl, hq⟩, phaseOk_saved hY⟩
    | compensating =>
      rw [step_save V hv it cur pre post hist users hit hcur h0 hpre]
      exact ⟨_, _, rfl, hit, Or.inr (Or.inl ⟨hq, rfl⟩), ⟨hv, _, rfl, hit, hq⟩, phaseOk_saved hY⟩
  | recording d =>
    obtain ⟨hv, it, rfl, hit, hq⟩ := hX
    obtain ⟨r, hr⟩ := castString_of_truthy V.reason
    rw [step_record V hv it r hr]
    exact ⟨cur, _, rfl, hcur, hQ, Or.inl ⟨_, rfl, hq⟩, hY⟩
  | reverting d => exact absurd hX (by simp [PhaseOk])
  | finished r =>
    rw [stepCall_finished]
    exact ⟨cur, hist, rfl, hcur, hQ, hX, hY⟩

theorem race_interleave {id : String} {pre post : List StockItem} {users : List User}
    {q n m : ℚ} {a b : Call} (Va : ValidRequest id q n a) (Vb : ValidRequest id q m b)
    (hsum : q < n + m) (hpre : ∀ t ∈ pre, (t._id == id) = false)
    (sched : List Bool) (r : Race)
    (h : RaceInvariant id pre post users q n m a b r.first r.second r.store) :
    RaceInvariant id pre post users q n m a b (interleave a b sched r).first
      (interleave a b sched r).second (interleave a b sched r).store := by
  induction sched generalizing r with
  | nil => exact h
  | cons s ss ih =>
    cases s with
    | false =>
      rw [interleave_false]
      exact ih _ (race_step Va hsum hpre h)
    | true =>
      rw [interleave_true]
      exact ih _ (raceInvariant_symm
        (race_step Vb (by linarith) hpre (raceInvariant_symm h)))

theorem interleave_append (a b : Call) (s1 s2 : List Bool) (r : Race) :
    interleave a b (s1 ++ s2) r = interleave a b s2 (interleave a b s1 r) := by
  induction s1 generalizing r with
  | nil => rfl
  | cons s ss ih =>
    cases s with
    | false => rw [List.cons_append, interleave_false, interleave_false, ih]
    | true => rw [List.cons_append, interleave_true, interleave_true, ih]

/-! ## A request that reads after the other one saved -/

theorem lateReader_of_invariant {id : String} {pre post : List StockItem} {users : List User}
    {q n m : ℚ} {x y : Call} {phX : Phase} {store : Store}
    (h : RaceInvariant id pre post users q n m x y phX .start store)
    (hs : phX.hasSaved = true) :
    LateReader id pre post users q n x y phX .start store := by
  obtain ⟨cur, hist, h1, h2, hQ, hX, -⟩ := h
  refine ⟨cur, hist, h1, h2, ?_, ?_, Or.inl rfl⟩
  · rcases hQ with hQ | hQ | hQ
    · rw [hs] at hQ
      exact absurd hQ.2.1 (by simp)
    · exact hQ.1
    · simp [Phase.hasSaved] at hQ
  · cases phX with
    | start => simp [Phase.hasSaved] at hs
    | loaded d => simp [Phase.hasSaved] at hs
    | saving d => simp [Phase.hasSaved] at hs
    | recording d =>
      obtain ⟨hv, it, rfl, -, -⟩ := hX
      exact Or.inl ⟨hv, it, rfl⟩
    | reverting d => simp [Phase.hasSaved] at hs
    | finished r =>
      rcases hX with ⟨it, rfl, -⟩ | ⟨rfl, -⟩
      · exact Or.inr ⟨it, rfl⟩
      · simp [Phase.hasSaved, insufficientStock] at hs

theorem lateReader_step_saved {id : String} {pre post : List StockItem} {users : List User}
    {q n : ℚ} {x y : Call} (V : ValidRequest id q n x) {phX phY : Phase} {store : Store}
    (h : LateReader id pre post users q n x y phX phY store) :
    LateReader id pre post users q n x y (stepCall x phX store).1 phY
      (stepCall x phX store).2 := by
  obtain ⟨cur, hist, rfl, hcur, hq, hX, hY⟩ := h
  rcases hX with ⟨hv, it, rfl⟩ | ⟨it, rfl⟩
  · obtain ⟨r, hr⟩ := castString_of_truthy V.reason
    rw [step_record V hv it r hr]
    exact ⟨cur, _, rfl, hcur, hq, Or.inr ⟨it, rfl⟩, hY⟩
  · rw [stepCall_finished]
    exact ⟨cur, hist, rfl, hcur, hq, Or.inr ⟨it, rfl⟩, hY⟩

theorem lateReader_step_late {id : String} {pre post : List StockItem} {users : List User}
    {q n m : ℚ} {x y : Call} (V : ValidRequest id q m y) (hsum : q < n + m)
    (hpre : ∀ t ∈ pre, (t._id == id) = false) {phX phY : Phase} {store : Store}
    (h : LateReader id pre post users q n x y phX phY store) :
    LateReader id pre post users q n x y phX (stepCall y phY store).1
      (stepCall y phY store).2 := by
  obtain ⟨cur, hist, rfl, hcur, hq, hX, hY⟩ := h
  rcases hY with rfl | ⟨it, rfl, hit⟩ | rfl
  · rw [step_read V, find_current cur hcur hpre]
    exact ⟨cur, hist, rfl, hcur, hq, hX, Or.inr (Or.inl ⟨cur, rfl, hq⟩)⟩
  · have hlt : it.quantity < m := by rw [hit]; linarith
    rw [step_check V]
    simp only [hlt, if_true]
    exact ⟨cur, hist, rfl, hcur, hq, hX, Or.inr (Or.inr (by rw [hit]))⟩
  · rw [stepCall_finished]
    exact ⟨cur, hist, rfl, hcur, hq, hX, Or.inr (Or.inr rfl)⟩

theorem lateReader_second {id : String} {pre post : List StockItem} {users : List User}
    {q n m : ℚ} {a b : Call} (Va : ValidRequest id q n a) (Vb : ValidRequest id q m b)
    (hsum : q < n + m) (hpre : ∀ t ∈ pre, (t._id == id) = false)
    (sched : List Bool) (r : Race)
    (h : LateReader id pre post users q n a b r.first r.second r.store) :
    LateReader id pre post users q n a b (interleave a b sched r).first
      (interleave a b sched r).second (interleave a b sched r).store := by
  induction sched generalizing r with
  | nil => exact h
  | cons s ss ih =>
    cases s with
    | false =>
      rw [interleave_false]
      exact ih _ (lateReader_step_saved Va h)
    | true =>
      rw [interleave_true]
      exact ih _ (lateReader_step_late Vb hsum hpre h)

theorem lateReader_first {id : String} {pre post : List StockItem} {users : List User}
    {q n m : ℚ} {a b : Call} (Va : ValidRequest id q n a) (Vb : ValidRequest id q m b)
    (hsum : q < n + m) (hpre : ∀ t ∈ pre, (t._id == id) = false)
    (sched : List Bool) (r : Race)
    (h : LateReader id pre post users q m b a r.second r.first r.store) :
    LateReader id pre post users q m b a (interleave a b sched r).second
      (interleave a b sched r).first (interleave a b sched r).store := by
  induction sched generalizing r with
  | nil => exact h
  | cons s ss ih =>
    cases s with
    | false =>
      rw [interleave_false]
      exact ih _ (lateReader_step_late Va (by linarith) hpre h)
    | true =>
      rw [interleave_true]
      exact ih _ (lateReader_step_saved Vb h)

theorem lateReader_answer {id : String} {pre post : List StockItem} {users : List User}
    {q n : ℚ} {x y : Call} {phX : Phase} {store : Store} {resp : Response}
    (h : LateReader id pre post users q n x y phX (.finished resp) store) :
    resp = insufficientStock (q - n) y.body.quantity := by
  obtain ⟨cur, hist, -, -, -, -, hY⟩ := h
  rcases hY with hY | ⟨it, hY, -⟩ | hY
  · cases hY
  · cases hY
  · cases hY
    rfl

theorem phaseOk_answer {id : String} {q n m : ℚ} {c : Call} {s : Bool} {resp : Response}
    (h : PhaseOk id q n m c s (.finished resp)) :
    (∃ it, resp = ⟨200, .stock it⟩ ∧ it.quantity = q - n) ∨
      resp = insufficientStock (q - m) c.body.quantity :=
  h.imp (fun h1 => h1) (fun h1 => h1.1)

/-! ## The compensating save on a Number quantity -/

theorem compensation_restores_number (env : Env) (st : Store) (id : String) (reason : JsVal)
    (user : String) (item : StockItem) (n : ℚ)
    (hid : matchesObjectId id = true)
    (hfind : st.stocks.find? (fun s => s._id == id) = some item)
    (hpos : 0 < n) (hr : truthy reason = true) (hsuff : n ≤ item.quantity)
    (hfindOk : env.findOk = true) (hstock : env.stockSaveOk = true)
    (hhist : env.historySaveOk = false) (hrevert : env.revertSaveOk = true) :
    (withdrawCompensating env st id ⟨.num (.fin n), reason⟩ user).response = withdrawFailure ∧
    ((withdrawCompensating env st id ⟨.num (.fin n), reason⟩ user).store.stocks.find?
      (fun s => s._id == id)).map (fun s => s.quantity) = some item.quantity ∧
    (withdrawCompensating env st id ⟨.num (.fin n), reason⟩ user).store.history = st.history := by
  obtain ⟨hitem, pre, post, hsplit, hpre⟩ := find_split hfind
  obtain ⟨r, hrs⟩ := castString_of_truthy hr
  have hpre2 : ∀ t ∈ pre, (t._id == item._id) = false := by simpa [hitem] using hpre
  have hq0 : 0 ≤ item.quantity - n + n := by linarith
  rw [compensating_eval env st id ⟨.num (.fin n), reason⟩ user item n r pre post hid hfind hsplit
    hpre rfl hpos hr hrs hsuff hfindOk]
  have hsave := save_eq
    (((item.withQuantity (item.quantity - n)).withUpdatedAt env.tStock).withQuantity
      (item.quantity - n + n))
    ((item.withQuantity (item.quantity - n)).withUpdatedAt env.tStock) env.tRevert pre post
    (by simpa using hq0) rfl (by simpa using hpre2)
  simp only [hstock, hhist, if_true, Bool.false_and, Bool.false_eq_true, if_false, revertWithdraw,
    StockDoc.setQuantity, jsAdd, toNumber, castNumber, withUpdatedAt_quantity,
    withQuantity_quantity, hrevert, hsave]
  refine ⟨trivial, ?_, trivial⟩
  rw [find_updated _ hpre (by simpa using hitem)]
  simp

/-! ## Quantities sent as strings -/

theorem fraction_reads : toNumber (.str "2.5") = .fin (5 / 2) := by
  with_unfolding_all decide

theorem radix_reads : toNumber (.str "0x5") = .fin 5 := by
  with_unfolding_all decide

theorem exponent_reads : toNumber (.str "1e1") = .fin 10 := by
  with_unfolding_all decide

theorem infinity_reads : toNumber (.str "Infinity") = .posInf := by
  with_unfolding_all decide

theorem fraction_string_withdraws :
    withdrawCompensating allOk sampleStore sampleItem._id ⟨.str "2.5", .str "sale"⟩ sampleUser =
      ⟨⟨200, .stock ((sampleItem.withQuantity (sampleItem.quantity - 5 / 2)).withUpdatedAt 100)⟩,
       ⟨[otherItem, (sampleItem.withQuantity (sampleItem.quantity - 5 / 2)).withUpdatedAt 100],
        [⟨sampleItem._id, 5 / 2, "sale", .withdraw, sampleUser, 101, 101⟩], []⟩,
       [.findStock sampleItem._id, .saveStock sampleItem._id (sampleItem.quantity - 5 / 2),
        .saveHistory sampleItem._id]⟩ :=
  compensating_success_eq allOk sampleStore sampleItem._id ⟨.str "2.5", .str "sale"⟩ sampleUser
    sampleItem (5 / 2) "sale" [otherItem] [] sample_id_matches sample_find rfl sample_pre
    fraction_reads (by norm_num) (by decide) (by decide) (by norm_num [sampleItem])
    sample_user_matches rfl rfl rfl

/-! ## One call after the other -/

theorem withdraw_ok_eq (c : Call) (st : Store) (item : StockItem) (n : ℚ) (r : String)
    (pre post : List StockItem)
    (hid : matchesObjectId c.id = true)
    (hfind : st.stocks.find? (fun s => s._id == c.id) = some item)
    (hsplit : st.stocks = pre ++ item :: post)
    (hpre : ∀ t ∈ pre, (t._id == c.id) = false)
    (hq : toNumber c.body.quantity = .fin n) (hpos : 0 < n)
    (hr : truthy c.body.reason = true) (hrs : castString c.body.reason = some r)
    (hsuff : n ≤ item.quantity) (huser : matchesObjectId c.user = true)
    (henv : c.env.findOk = true ∧ c.env.sessionOk = true ∧ c.env.stockSaveOk = true ∧
      c.env.historySaveOk = true ∧ c.env.commitOk = true) :
    (withdraw c st).response =
      ⟨200, .stock ((item.withQuantity (item.quantity - n)).withUpdatedAt c.env.tStock)⟩ ∧
    (withdraw c st).store =
      ⟨pre ++ (item.withQuantity (item.quantity - n)).withUpdatedAt c.env.tStock :: post,
       st.history ++ [⟨item._id, n, r, .withdraw, c.user, c.env.tHistory, c.env.tHistory⟩],
       st.users⟩ := by
  obtain ⟨h1, h2, h3, h4, h5⟩ := henv
  unfold withdraw
  split
  · rw [transactional_success_eq c.env st c.id c.body c.user item n r pre post hid hfind hsplit
      hpre hq hpos hr hrs hsuff huser h1 h2 h3 h4 h5]
    exact ⟨rfl, rfl⟩
  · rw [compensating_success_eq c.env st c.id c.body c.user item n r pre post hid hfind hsplit
      hpre hq hpos hr hrs hsuff huser h1 h3 h4]
    exact ⟨rfl, rfl⟩

theorem withdraw_insufficient_eq (c : Call) (st : Store) (item : StockItem) (n : ℚ)
    (hid : matchesObjectId c.id = true)
    (hfindOk : c.env.findOk = true)
    (hfind : st.stocks.find? (fun s => s._id == c.id) = some item)
    (hq : toNumber c.body.quantity = .fin n) (hpos : 0 < n)
    (hr : truthy c.body.reason = true)
    (hlt : item.quantity < n) :
    (withdraw c st).response =
      ⟨400, .insufficient "จำนวนสินค้าไม่เพียงพอ" item.quantity c.body.quantity⟩ ∧
    (withdraw c st).store = st := by
  have htq : truthy c.body.quantity = true := truthy_of_toNumber hq (ne_of_gt hpos)
  have h1 : ¬ n ≤ 0 := not_le.mpr hpos
  unfold withdraw
  split
  · simp [withdrawTransactional, hid, hfindOk, findById_eq hfind, htq, hr, isNaN, hq, jsLe,
      jsLt, h1, hlt, insufficientStock]
  · simp [withdrawCompensating, hid, hfindOk, findById_eq hfind, htq, hr, isNaN, hq, jsLe,
      jsLt, h1, hlt, insufficientStock]

/-! ## Both requests read before either saves -/

theorem reads_first_both_succeed {id : String} {q n m : ℚ} {a b : Call}
    (Va : ValidRequest id q n a) (Vb : ValidRequest id q m b)
    (item : StockItem) (pre post : List StockItem) (hist : List HistoryEntry) (users : List User)
    (ra rb : String) (hra : castString a.body.reason = some ra)
    (hrb : castString b.body.reason = some rb)
    (hitem : item._id = id) (hq : item.quantity = q)
    (hpre : ∀ t ∈ pre, (t._id == id) = false) :
    interleave a b readsFirst ⟨.start, .start, ⟨pre ++ item :: post, hist, users⟩⟩ =
      ⟨.finished ⟨200, .stock ((item.withQuantity (item.quantity - n)).withUpdatedAt a.env.tStock)⟩,
       .finished ⟨200, .stock ((item.withQuantity (item.quantity - m)).withUpdatedAt b.env.tStock)⟩,
       ⟨pre ++ (item.withQuantity (item.quantity - m)).withUpdatedAt b.env.tStock :: post,
        hist ++ [⟨item._id, n, ra, .withdraw, a.user, a.env.tHistory, a.env.tHistory⟩,
          ⟨item._id, m, rb, .withdraw, b.user, b.env.tHistory, b.env.tHistory⟩],
        users⟩⟩ := by
  have hna : ¬ item.quantity < n := by rw [hq]; exact not_lt.mpr Va.le
  have hnb : ¬ item.quantity < m := by rw [hq]; exact not_lt.mpr Vb.le
  have h0a : 0 ≤ (item.withQuantity (item.quantity - n)).quantity := by
    simp only [withQuantity_quantity]; linarith [Va.le]
  have h0b : 0 ≤ (item.withQuantity (item.quantity - m)).quantity := by
    simp only [withQuantity_quantity]; linarith [Vb.le]
  simp only [readsFirst, interleave_false, interleave_true, step_read Va, step_read Vb,
    find_current item hitem hpre, step_check Va, step_check Vb, hna, hnb, if_false]
  cases hva : a.variant with
  | transactional =>
    rw [step_transaction Va hva _ item pre post hist users ra hra (by simpa using hitem) hitem
      h0a hpre]
    simp only [stepCall_finished]
    cases hvb : b.variant with
    | transactional =>
      rw [step_transaction Vb hvb _ _ pre post _ users rb hrb (by simpa using hitem)
        (by simpa using hitem) h0b hpre]
      simp [stepCall_finished, interleave]
    | compensating =>
      rw [step_save Vb hvb _ _ pre post _ users (by simpa using hitem) (by simpa using hitem)
        h0b hpre]
      simp only []
      rw [step_record Vb hvb _ rb hrb]
      simp [interleave]
  | compensating =>
    rw [step_save Va hva _ item pre post hist users (by simpa using hitem) hitem h0a hpre]
    simp only []
    rw [step_record Va hva _ ra hra]
    simp only []
    cases hvb : b.variant with
    | transactional =>
      rw [step_transaction Vb hvb _ _ pre post _ users rb hrb (by simpa using hitem)
        (by simpa using hitem) h0b hpre]
      simp [stepCall_finished, interleave]
    | compensating =>
      rw [step_save Vb hvb _ _ pre post _ users (by simpa using hitem) (by simpa using hitem)
        h0b hpre]
      simp only []
      rw [step_record Vb hvb _ rb hrb]
      simp [interleave]

/-! ## Claim C9 -/

theorem sixUnits_valid (v : Variant) (u : String) (hu : matchesObjectId u = true) :
    ValidRequest sampleItem._id sampleItem.quantity 6 (sixUnits v u) :=
  ⟨rfl, sample_id_matches, rfl, by norm_num, by norm_num [sampleItem],
    by simp [sixUnits, truthy], hu, rfl, rfl, rfl, rfl, rfl⟩

theorem other_user_matches : matchesObjectId otherUser = true := by decide

theorem sixUnits_race (v w : Variant) :
    interleave (sixUnits v sampleUser) (sixUnits w otherUser) readsFirst
        ⟨.start, .start, sampleStore⟩ =
      ⟨.finished ⟨200, .stock ((sampleItem.withQuantity 4).withUpdatedAt 100)⟩,
       .finished ⟨200, .stock ((sampleItem.withQuantity 4).withUpdatedAt 100)⟩,
       ⟨[otherItem, (sampleItem.withQuantity 4).withUpdatedAt 100],
        [⟨sampleItem._id, 6, "sale", .withdraw, sampleUser, 101, 101⟩,
         ⟨sampleItem._id, 6, "sale", .withdraw, otherUser, 101, 101⟩],
        []⟩⟩ := by
  have key := reads_first_both_succeed (sixUnits_valid v sampleUser sample_user_matches)
    (sixUnits_valid w otherUser other_user_matches) sampleItem [otherItem] [] [] [] "sale" "sale"
    (by simp [sixUnits, castString]) (by simp [sixUnits, castString]) rfl rfl sample_pre
  have h4 : sampleItem.quantity - 6 = 4 := by norm_num [sampleItem]
  rw [h4] at key
  exact key

/-- C9 as stated fails: two requests for six of the ten units of the sample
item, made by two users with well-formed ids and scheduled so that both read
and check before either saves, both end with status 200; the item is left
with four units and the history log records twelve units withdrawn.  This
holds with both requests served by the compensating handler and with both
served by the transactional handler. -/
theorem concurrent_withdrawals_both_succeed :
    (6 : ℚ) ≤ sampleItem.quantity ∧ sampleItem.quantity < 6 + 6 ∧
    matchesObjectId sampleUser = true ∧ matchesObjectId otherUser = true ∧
    interleave (sixUnits .compensating sampleUser) (sixUnits .compensating otherUser) readsFirst
        ⟨.start, .start, sampleStore⟩ =
      ⟨.finished ⟨200, .stock ((sampleItem.withQuantity 4).withUpdatedAt 100)⟩,
       .finished ⟨200, .stock ((sampleItem.withQuantity 4).withUpdatedAt 100)⟩,
       ⟨[otherItem, (sampleItem.withQuantity 4).withUpdatedAt 100],
        [⟨sampleItem._id, 6, "sale", .withdraw, sampleUser, 101, 101⟩,
         ⟨sampleItem._id, 6, "sale", .withdraw, otherUser, 101, 101⟩],
        []⟩⟩ ∧
    interleave (sixUnits .transactional sampleUser) (sixUnits .transactional otherUser)
        readsFirst ⟨.start, .start, sampleStore⟩ =
      ⟨.finished ⟨200, .stock ((sampleItem.withQuantity 4).withUpdatedAt 100)⟩,
       .finished ⟨200, .stock ((sampleItem.withQuantity 4).withUpdatedAt 100)⟩,
       ⟨[otherItem, (sampleItem.withQuantity 4).withUpdatedAt 100],
        [⟨sampleItem._id, 6, "sale", .withdraw, sampleUser, 101, 101⟩,
         ⟨sampleItem._id, 6, "sale", .withdraw, otherUser, 101, 101⟩],
        []⟩⟩ :=
  ⟨by norm_num [sampleItem], by norm_num [sampleItem], sample_user_matches, other_user_matches,
    sixUnits_race .compensating .compensating, sixUnits_race .transactional .transactional⟩

/-- C9, amended: for a stock item holding `q` units and two valid requests for
`na` and `nb` units of it, with `na ≤ q`, `nb ≤ q` and `na + nb > q`, made by
users with well-formed ids and with storage calls that succeed, under every
schedule of their read, check and save steps:
every stored quantity stays non-negative;
a request that is answered has either succeeded, with the item at `q` less
its own quantity, or received InsufficientStock (no other answer exists, in
particular no conflict);
a request that had not read when the other one had saved its decrement is
answered InsufficientStock with the other one's result as `available`, so
that at most one of the two succeeds;
and when the first request is answered before the second one reads, the
first succeeds and the second gets InsufficientStock. -/
theorem concurrent_withdrawals_late_read (a b : Call) (st : Store) (item : StockItem)
    (na nb : ℚ)
    (hst : st.nonneg)
    (hid : matchesObjectId a.id = true) (hsame : b.id = a.id)
    (hfind : st.stocks.find? (fun s => s._id == a.id) = some item)
    (hqa : toNumber a.body.quantity = .fin na) (hqb : toNumber b.body.quantity = .fin nb)
    (hpa : 0 < na) (hpb : 0 < nb)
    (hra : truthy a.body.reason = true) (hrb : truthy b.body.reason = true)
    (hla : na ≤ item.quantity) (hlb : nb ≤ item.quantity) (hsum : item.quantity < na + nb)
    (hua : matchesObjectId a.user = true) (hub : matchesObjectId b.user = true)
    (hea : a.env.findOk = true ∧ a.env.sessionOk = true ∧ a.env.stockSaveOk = true ∧
      a.env.historySaveOk = true ∧ a.env.commitOk = true)
    (heb : b.env.findOk = true ∧ b.env.sessionOk = true ∧ b.env.stockSaveOk = true ∧
      b.env.historySaveOk = true ∧ b.env.commitOk = true) :
    (∀ sched : List Bool, (interleave a b sched ⟨.start, .start, st⟩).store.nonneg) ∧
    (∀ (sched : List Bool) (resp : Response),
      (interleave a b sched ⟨.start, .start, st⟩).first = .finished resp →
      (∃ it : StockItem, resp = ⟨200, .stock it⟩ ∧ it.quantity = item.quantity - na) ∨
      resp = ⟨400, .insufficient "จำนวนสินค้าไม่เพียงพอ" (item.quantity - nb) a.body.quantity⟩) ∧
    (∀ (sched : List Bool) (resp : Response),
      (interleave a b sched ⟨.start, .start, st⟩).second = .finished resp →
      (∃ it : StockItem, resp = ⟨200, .stock it⟩ ∧ it.quantity = item.quantity - nb) ∨
      resp = ⟨400, .insufficient "จำนวนสินค้าไม่เพียงพอ" (item.quantity - na) b.body.quantity⟩) ∧
    (∀ (s1 s2 : List Bool) (resp : Response),
      (interleave a b s1 ⟨.start, .start, st⟩).second = .start →
      (interleave a b s1 ⟨.start, .start, st⟩).first.hasSaved = true →
      (interleave a b (s1 ++ s2) ⟨.start, .start, st⟩).second = .finished resp →
      resp = ⟨400, .insufficient "จำนวนสินค้าไม่เพียงพอ" (item.quantity - na) b.body.quantity⟩) ∧
    (∀ (s1 s2 : List Bool) (resp : Response),
      (interleave a b s1 ⟨.start, .start, st⟩).first = .start →
      (interleave a b s1 ⟨.start, .start, st⟩).second.hasSaved = true →
      (interleave a b (s1 ++ s2) ⟨.start, .start, st⟩).first = .finished resp →
      resp = ⟨400, .insufficient "จำนวนสินค้าไม่เพียงพอ" (item.quantity - nb) a.body.quantity⟩) ∧
    (∀ k m : Nat, 5 ≤ k → 5 ≤ m → ∃ updated : StockItem,
      interleave a b (List.replicate k false ++ List.replicate m true) ⟨.start, .start, st⟩ =
        ⟨.finished ⟨200, .stock updated⟩,
         .finished ⟨400, .insufficient "จำนวนสินค้าไม่เพียงพอ" (item.quantity - na) b.body.quantity⟩,
         (withdraw a st).store⟩ ∧
      updated.quantity = item.quantity - na) := by
  obtain ⟨hitem, pre, post, hsplit, hpre⟩ := find_split hfind
  have Va : ValidRequest a.id item.quantity na a :=
    ⟨rfl, hid, hqa, hpa, hla, hra, hua, hea.1, hea.2.1, hea.2.2.1, hea.2.2.2.1, hea.2.2.2.2⟩
  have Vb : ValidRequest a.id item.quantity nb b :=
    ⟨hsame, hid, hqb, hpb, hlb, hrb, hub, heb.1, heb.2.1, heb.2.2.1, heb.2.2.2.1, heb.2.2.2.2⟩
  have hinit : RaceInvariant a.id pre post st.users item.quantity na nb a b .start .start st := by
    refine ⟨item, st.history, ?_, hitem, Or.inl ⟨rfl, rfl, rfl⟩, trivial, trivial⟩
    rw [← hsplit]
  have hinv : ∀ sched : List Bool,
      RaceInvariant a.id pre post st.users item.quantity na nb a b
        (interleave a b sched ⟨.start, .start, st⟩).first
        (interleave a b sched ⟨.start, .start, st⟩).second
        (interleave a b sched ⟨.start, .start, st⟩).store :=
    fun sched => race_interleave Va Vb hsum hpre sched ⟨.start, .start, st⟩ hinit
  refine ⟨fun sched => interleave_nonneg a b sched _ hst, ?_, ?_, ?_, ?_, ?_⟩
  · intro sched resp hresp
    obtain ⟨cur, hist, -, -, -, hX, -⟩ := hinv sched
    rw [hresp] at hX
    exact phaseOk_answer hX
  · intro sched resp hresp
    obtain ⟨cur, hist, -, -, -, -, hY⟩ := hinv sched
    rw [hresp] at hY
    exact phaseOk_answer hY
  · intro s1 s2 resp hstart hsaved hresp
    have h1 := hinv s1
    rw [hstart] at h1
    have h2 : LateReader a.id pre post st.users item.quantity na a b
        (interleave a b s1 ⟨.start, .start, st⟩).first
        (interleave a b s1 ⟨.start, .start, st⟩).second
        (interleave a b s1 ⟨.start, .start, st⟩).store := by
      rw [hstart]
      exact lateReader_of_invariant h1 hsaved
    have h3 := lateReader_second Va Vb hsum hpre s2 (interleave a b s1 ⟨.start, .start, st⟩) h2
    rw [← interleave_append, hresp] at h3
    exact lateReader_answer h3
  · intro s1 s2 resp hstart hsaved hresp
    have h1 := raceInvariant_symm (hinv s1)
    rw [hstart] at h1
    have h2 : LateReader a.id pre post st.users item.quantity nb b a
        (interleave a b s1 ⟨.start, .start, st⟩).second
        (interleave a b s1 ⟨.start, .start, st⟩).first
        (interleave a b s1 ⟨.start, .start, st⟩).store := by
      rw [hstart]
      exact lateReader_of_invariant h1 hsaved
    have h3 := lateReader_first Va Vb hsum hpre s2 (interleave a b s1 ⟨.start, .start, st⟩) h2
    rw [← interleave_append, hresp] at h3
    exact lateReader_answer h3
  · intro k m hk hm
    obtain ⟨r, hrs⟩ := castString_of_truthy hra
    obtain ⟨hresp, hstore⟩ := withdraw_ok_eq a st item na r pre post hid hfind hsplit hpre hqa hpa
      hra hrs hla hua hea
    have hfind2 : (withdraw a st).store.stocks.find? (fun s => s._id == b.id) =
        some ((item.withQuantity (item.quantity - na)).withUpdatedAt a.env.tStock) := by
      rw [hstore, hsame]
      exact find_updated _ hpre (by simpa using hitem)
    obtain ⟨hresp2, hstore2⟩ := withdraw_insufficient_eq b (withdraw a st).store _ nb
      (by rw [hsame]; exact hid) heb.1 hfind2 hqb hpb hrb (by simp; linarith)
    refine ⟨(item.withQuantity (item.quantity - na)).withUpdatedAt a.env.tStock, ?_, by simp⟩
    rw [interleave_serial a b k m hk hm, hresp, hresp2, hstore2]
    simp

/-- Witness of C9, amended: two requests for six of the ten units of the
sample item, the first served by the compensating handler and the second by
the transactional one; in the schedule that lets the first request save
before the second one reads, the second is answered InsufficientStock with
four units available. -/
theorem concurrent_withdrawals_late_read_witness :
    (interleave (sixUnits .compensating sampleUser) (sixUnits .transactional otherUser)
      [false, false, false] ⟨.start, .start, sampleStore⟩).second = .start ∧
    (interleave (sixUnits .compensating sampleUser) (sixUnits .transactional otherUser)
      [false, false, false] ⟨.start, .start, sampleStore⟩).first.hasSaved = true ∧
    (∀ (s2 : List Bool) (resp : Response),
      (interleave (sixUnits .compensating sampleUser) (sixUnits .transactional otherUser)
        ([false, false, false] ++ s2) ⟨.start, .start, sampleStore⟩).second = .finished resp →
      resp = ⟨400, .insufficient "จำนวนสินค้าไม่เพียงพอ" (sampleItem.quantity - 6)
        (sixUnits .transactional otherUser).body.quantity⟩) :=
  have V := sixUnits_valid .compensating sampleUser sample_user_matches
  have hstate : interleave (sixUnits .compensating sampleUser)
      (sixUnits .transactional otherUser) [false, false, false] ⟨.start, .start, sampleStore⟩ =
      ⟨.recording ⟨(sampleItem.withQuantity (sampleItem.quantity - 6)).withUpdatedAt 100, false⟩,
       .start,
       ⟨[otherItem] ++ (sampleItem.withQuantity (sampleItem.quantity - 6)).withUpdatedAt 100 :: [],
        [], []⟩⟩ := by
    have hna : ¬ sampleItem.quantity < 6 := by norm_num [sampleItem]
    have hstore : sampleStore = ⟨[otherItem] ++ sampleItem :: [], [], []⟩ := rfl
    rw [hstore]
    simp only [interleave_false, step_read V, find_current sampleItem rfl sample_pre,
      step_check V, hna, if_false]
    rw [step_save V rfl (sampleItem.withQuantity (sampleItem.quantity - 6)) sampleItem
      [otherItem] [] [] [] rfl rfl (by norm_num [sampleItem]) sample_pre]
    rfl
  have h := concurrent_withdrawals_late_read (sixUnits .compensating sampleUser)
    (sixUnits .transactional otherUser) sampleStore sampleItem 6 6
    (by
      intro s hs
      simp only [sampleStore, List.mem_cons, List.mem_singleton, List.not_mem_nil, or_false] at hs
      rcases hs with rfl | rfl <;> norm_num [otherItem, sampleItem])
    sample_id_matches rfl sample_find rfl rfl (by norm_num) (by norm_num) (by decide) (by decide)
    (by norm_num [sampleItem]) (by norm_num [sampleItem]) (by norm_num [sampleItem])
    sample_user_matches other_user_matches ⟨rfl, rfl, rfl, rfl, rfl⟩ ⟨rfl, rfl, rfl, rfl, rfl⟩
  ⟨by rw [hstate], by rw [hstate]; rfl,
    fun s2 resp hresp =>
      h.2.2.2.1 [false, false, false] s2 resp (by rw [hstate]) (by rw [hstate]; rfl) hresp⟩

end BlackFront
